import Mathlib

/-!
Verification of `src/extract.py` (gallery2-to-static).

The script is embedded shallowly: byte/unicode strings become `List Char`
(the Python 2 str/unicode distinction is not modelled; characters stand for
themselves), the MySQL record store becomes a finite tree of rows, and the
filesystem becomes an explicit state threaded through the traversal, together
with a log of the mutation effects the script performs.  All definitions are
structurally recursive so that concrete runs evaluate inside the kernel.
-/

set_option maxRecDepth 4000

/-- Strings of the script are modelled as lists of characters. -/
abbrev Str := List Char

/-- Python `str.replace(pat, rep)` scanning left to right, non-overlapping,
implemented with a character-count fuel (the wrapper `strReplace` supplies
`s.length`, which is enough fuel because every step consumes at least one
character of the input). -/
def strReplaceGo (pat rep : Str) : Nat → Str → Str
  | _, [] => []
  | 0, s => s
  | fuel + 1, c :: rest =>
    if List.isPrefixOf pat (c :: rest) then
      rep ++ strReplaceGo pat rep fuel (List.drop pat.length (c :: rest))
    else
      c :: strReplaceGo pat rep fuel rest

/-- Python `s.replace(pat, rep)` for a non-empty pattern. -/
def strReplace (pat rep s : Str) : Str := strReplaceGo pat rep s.length s

/-- Python 2 `str.lower()` under the default C locale: ASCII letters only. -/
def pyLower (c : Char) : Char :=
  if 'A' ≤ c ∧ c ≤ 'Z' then Char.ofNat (c.toNat + 32) else c

/-- The character class of `RE_ILLIGAL = re.compile(r'[\[\]\\\/\?%:|"\'><#\s&]')`
from extract.py line 22.  `\s` without `re.UNICODE` is the six ASCII
whitespace characters. -/
def illegalChars : Str :=
  ['[', ']', '\\', '/', '?', '%', ':', '|', '"', Char.ofNat 39, '>', '<', '#',
   ' ', '\t', '\n', '\r', Char.ofNat 11, Char.ofNat 12, '&']

/-- Membership in the `RE_ILLIGAL` class. -/
def isIllegalChar (c : Char) : Bool := illegalChars.contains c

/-- `RE_ILLIGAL.sub('_', s)`: every character of the class becomes `_`. -/
def illegalSub (s : Str) : Str :=
  s.map (fun c => if isIllegalChar c then '_' else c)

/-- The `unidecode` transliteration table restricted to the characters
exercised in this development.  The real library maps every codepoint below
0x80 to itself, maps the non-ASCII characters used here as listed, and maps
codepoints missing from its tables to the empty string. -/
def unidecodeChar (c : Char) : Str :=
  if c.toNat < 0x80 then [c]
  else if c = 'é' then ['e']
  else if c = 'É' then ['E']
  else if c = 'å' then ['a']
  else if c = '«' then ['<', '<']
  else if c = '»' then ['>', '>']
  else if c.toNat = 160 then [' ']
  else []

/-- `decode(text)` from extract.py lines 255-259:
`unidecode(unicode(text)).encode('iso-8859-15')`.  The latin-9
decode/encode round trip is invisible at this level of modelling, so the
function is transliteration alone.  (`decode(None) = ''` is handled at the
call sites that can pass `None`.) -/
def decode (s : Str) : Str := (s.map unidecodeChar).flatten

/-- Scanner of the matcher `RE_MARKUP = re.compile(r'\[.*?\]')`: from a `[`,
the characters up to and including the first following `]`, failing if a
newline intervenes (`.` does not match a newline).  Returns the number of
characters strictly before the `]`. -/
def findClose : Str → Option Nat
  | [] => none
  | ']' :: _ => some 0
  | '\n' :: _ => none
  | _ :: rest => (findClose rest).map (· + 1)

/-- `RE_MARKUP.sub('', s)`: remove every (leftmost, non-greedy) bracketed
span.  Fuel-driven; the wrapper supplies `s.length`, enough because every
step consumes at least one character. -/
def markupSubGo : Nat → Str → Str
  | _, [] => []
  | 0, s => s
  | fuel + 1, c :: rest =>
    if c = '[' then
      match findClose rest with
      | some i => markupSubGo fuel (List.drop (i + 1) rest)
      | none => '[' :: markupSubGo fuel rest
    else
      c :: markupSubGo fuel rest

/-- `RE_MARKUP.sub('', s)`. -/
def markupSub (s : Str) : Str := markupSubGo s.length s

/-- Hexadecimal digit, the class `[0-9a-fA-F]`. -/
def isHexDigit (c : Char) : Bool :=
  ('0' ≤ c ∧ c ≤ '9') ∨ ('a' ≤ c ∧ c ≤ 'f') ∨ ('A' ≤ c ∧ c ≤ 'F')

/-- Word character, the class `\w` without `re.UNICODE`. -/
def isWordChar (c : Char) : Bool :=
  ('0' ≤ c ∧ c ≤ '9') ∨ ('a' ≤ c ∧ c ≤ 'z') ∨ ('A' ≤ c ∧ c ≤ 'Z') ∨ c = '_'

/-- Value of one hexadecimal digit. -/
def hexVal (c : Char) : Nat :=
  if '0' ≤ c ∧ c ≤ '9' then c.toNat - '0'.toNat
  else if 'a' ≤ c ∧ c ≤ 'f' then c.toNat - 'a'.toNat + 10
  else c.toNat - 'A'.toNat + 10

/-- Python `int(s)` restricted to the digit strings that can occur here:
defined exactly when `s` is a non-empty string of `0-9`. -/
def parseDec (s : Str) : Option Nat :=
  if s ≠ [] ∧ s.all (fun c => '0' ≤ c ∧ c ≤ '9') then
    some (s.foldl (fun a c => a * 10 + (c.toNat - '0'.toNat)) 0)
  else none

/-- Python `int(s, 16)`: defined exactly when `s` is a non-empty string of
hexadecimal digits. -/
def parseHex (s : Str) : Option Nat :=
  if s ≠ [] ∧ s.all isHexDigit then
    some (s.foldl (fun a c => a * 16 + hexVal c) 0)
  else none

/-- The entity table of `htmlentitydefs.name2codepoint` (plus `apos`),
restricted to the entity names exercised in this development. -/
def entityLookup (nm : Str) : Option Char :=
  if nm = "amp".toList then some '&'
  else if nm = "lt".toList then some '<'
  else if nm = "gt".toList then some '>'
  else if nm = "quot".toList then some '"'
  else if nm = "eacute".toList then some 'é'
  else if nm = "aring".toList then some 'å'
  else if nm = "laquo".toList then some '«'
  else if nm = "raquo".toList then some '»'
  else if nm = "nbsp".toList then some (Char.ofNat 160)
  else none

/-- First alternative `[0-9a-fA-F]+` of the entity regex body, followed by
the closing `;` (a shorter-than-maximal digit run is always followed by a
digit, never by `;`, so no backtracking is needed). -/
def entAlt1 (s : Str) : Option (Str × Str) :=
  match s.takeWhile isHexDigit, s.dropWhile isHexDigit with
  | [], _ => none
  | ds, ';' :: r => some (ds, r)
  | _, _ => none

/-- Second alternative `\w{1,8}` of the entity regex body, followed by the
closing `;` (if the maximal word run is longer than 8 the greedy matcher
backtracks through runs of 8..1 word characters, each followed by another
word character, so the alternative fails). -/
def entAlt2 (s : Str) : Option (Str × Str) :=
  let ws := s.takeWhile isWordChar
  if 1 ≤ ws.length ∧ ws.length ≤ 8 then
    match s.dropWhile isWordChar with
    | ';' :: r => some (ws, r)
    | _ => none
  else none

/-- The body alternation `(?:[0-9a-fA-F]+|\w{1,8})` followed by `;`. -/
def entBody (s : Str) : Option (Str × Str) :=
  match entAlt1 s with
  | some r => some r
  | none => entAlt2 s

/-- The optional `[xX]?` of the entity regex, with backtracking. -/
def entAfterHash (s : Str) : Option (Str × Str) :=
  match s with
  | c :: rest =>
    if c = 'x' ∨ c = 'X' then
      match entBody rest with
      | some (g, r) => some (c :: g, r)
      | none => entBody s
    else entBody s
  | [] => none

/-- Matcher for the text following a `&` against
`(#?[xX]?(?:[0-9a-fA-F]+|\w{1,8}));` — the pattern used by Python 2.7's
`HTMLParser.unescape`.  Returns the captured group and the remainder after
the `;`. -/
def matchAfterAmp (s : Str) : Option (Str × Str) :=
  match s with
  | '#' :: rest =>
    (match entAfterHash rest with
     | some (g, r) => some ('#' :: g, r)
     | none => entAfterHash s)
  | _ => entAfterHash s

/-- `unichr(n)` succeeds below 0x110000; this model additionally rejects the
surrogate range (lone surrogates are representable in Python 2 but not as a
`Char`; no input considered here produces one). -/
def unichrValid (n : Nat) : Bool := n < 0xd800 ∨ (0xe000 ≤ n ∧ n < 0x110000)

/-- The `replaceEntities` callback of `HTMLParser.unescape`: numeric
references decode through `unichr` (a `ValueError` reproduces the matched
text), named references look up the entity table (a `KeyError` reproduces
the matched text). -/
def replaceEntities (g : Str) : Str :=
  match g with
  | '#' :: s =>
    let num : Option Nat :=
      match s with
      | c :: rest => if c = 'x' ∨ c = 'X' then parseHex rest else parseDec s
      | [] => none
    (match num with
     | some n => if unichrValid n then [Char.ofNat n] else '&' :: '#' :: (s ++ [';'])
     | none => '&' :: '#' :: (s ++ [';']))
  | _ =>
    match entityLookup g with
    | some c => [c]
    | none => '&' :: (g ++ [';'])

/-- One scan of `re.sub(pattern, replaceEntities, s)`: at each `&` try the
pattern; on a match emit the replacement and continue after the `;`,
otherwise emit the `&` and continue.  Fuel-driven; every step consumes at
least one input character. -/
def unescapeScanGo : Nat → Str → Str
  | _, [] => []
  | 0, s => s
  | fuel + 1, c :: rest =>
    if c = '&' then
      match matchAfterAmp rest with
      | some (g, r) => replaceEntities g ++ unescapeScanGo fuel r
      | none => '&' :: unescapeScanGo fuel rest
    else
      c :: unescapeScanGo fuel rest

/-- `HTML_PARSER.unescape(s)`: returns `s` unchanged when it contains no
`&`, otherwise substitutes every character-reference match. -/
def unescapeOnce (s : Str) : Str :=
  if s.contains '&' then unescapeScanGo s.length s else s

/-- The incremental html-entity decode loop of extract.py lines 464-468:
`while prev != uip: prev = uip; uip = HTML_PARSER.unescape(uip)`.
Every changing pass of `unescapeOnce` strictly shortens the string (each
replaced reference `&...;` of at least 3 characters becomes one character),
so `length + 1` rounds of fuel always reach the fixed point the Python loop
reaches. -/
def unescapeFix : Nat → Str → Str
  | 0, s => s
  | fuel + 1, s =>
    let t := unescapeOnce s
    if t = s then s else unescapeFix fuel t

/-- `cleanup_uipathcomponent` from extract.py lines 456-476, the name
sanitizer: strip NUL bytes and transliterate, drop bracketed markup, decode
html entities to a fixed point, replace the illegal characters by `_`,
collapse `__` and `_-_`, transliterate again and lower-case. -/
def cleanup_uipathcomponent (uipathcomponent : Str) : Str :=
  let s0 := decode (strReplace [Char.ofNat 0] [] uipathcomponent)
  let s1 := markupSub s0
  let s2 := unescapeFix (s1.length + 1) s1
  let s3 := illegalSub s2
  let s4 := strReplace "_-_".toList "-".toList (strReplace "__".toList "_".toList s3)
  List.map pyLower (decode s4)

/-- Occurrence test: does `pat` occur as a contiguous substring of `s`? -/
def occurs (pat : Str) : Str → Bool
  | [] => List.isPrefixOf pat []
  | c :: rest => List.isPrefixOf pat (c :: rest) || occurs pat rest

/-- Python truthiness of `a or b` for an optional string `a` whose fallback
`b` is a plain string: `None` and `''` select the fallback. -/
def pyOrS (a : Option Str) (b : Str) : Str :=
  match a with
  | some s => if s = [] then b else s
  | none => b

/-- Comparison order on characters coincides with the order of codepoints. -/
theorem char_le_iff {a b : Char} : a ≤ b ↔ a.toNat ≤ b.toNat :=
  ⟨fun h => h, fun h => h⟩

/-- Characters are equal exactly when their codepoints are. -/
theorem char_eq_iff {a b : Char} : a = b ↔ a.toNat = b.toNat :=
  ⟨fun h => by rw [h], fun h =>
    Char.le_antisymm (char_le_iff.mpr (Nat.le_of_eq h)) (char_le_iff.mpr (Nat.le_of_eq h.symm))⟩

/-- Codepoint of `Char.ofNat` below the surrogate range. -/
theorem toNat_ofNat_valid (n : Nat) (h : n < 0xd800) : (Char.ofNat n).toNat = n := by
  rw [Char.ofNat, dif_pos (Or.inl h)]
  simp [Char.ofNatAux, Char.toNat, UInt32.ofNat', UInt32.toNat, BitVec.toNat_ofNatLt]

/-- Codepoint computation for `pyLower`. -/
theorem pyLower_toNat (c : Char) :
    (pyLower c).toNat = if 'A' ≤ c ∧ c ≤ 'Z' then c.toNat + 32 else c.toNat := by
  unfold pyLower
  split_ifs with h
  · have h2 : c.toNat ≤ 90 := char_le_iff.mp h.2
    exact toNat_ofNat_valid _ (by omega)
  · rfl

/-- The output of `pyLower` is never an upper-case ASCII letter. -/
theorem pyLower_not_upper (c : Char) : ¬('A' ≤ pyLower c ∧ pyLower c ≤ 'Z') := by
  have hA : ('A').toNat = 65 := by decide
  have hZ : ('Z').toNat = 90 := by decide
  rw [char_le_iff, char_le_iff, pyLower_toNat]
  split_ifs with h
  · have h1 : 65 ≤ c.toNat := hA ▸ char_le_iff.mp h.1
    omega
  · rw [char_le_iff, char_le_iff] at h
    omega

/-- `pyLower` fixes characters that are not upper-case ASCII letters. -/
theorem pyLower_eq_self (c : Char) (h : ¬('A' ≤ c ∧ c ≤ 'Z')) : pyLower c = c := by
  rw [pyLower, if_neg h]

/-- `pyLower` is idempotent. -/
theorem pyLower_idem (c : Char) : pyLower (pyLower c) = pyLower c :=
  pyLower_eq_self _ (pyLower_not_upper c)

/-- Lower-casing twice equals lower-casing once, on whole strings. -/
theorem map_pyLower_idem (l : Str) : (l.map pyLower).map pyLower = l.map pyLower := by
  rw [List.map_map]
  exact List.map_congr_left (fun a _ => pyLower_idem a)

/-- A map whose function fixes every member is the identity. -/
theorem map_eq_self_of_fix {f : Char → Char} {l : Str} (h : ∀ c ∈ l, f c = c) :
    l.map f = l := by
  induction l with
  | nil => rfl
  | cons a t ih =>
    simp only [List.map_cons, h a (List.mem_cons_self a t),
      ih (fun c hc => h c (List.mem_cons_of_mem _ hc))]

/-- `pyLower` keeps codepoints inside ASCII. -/
theorem pyLower_ascii (c : Char) (h : c.toNat < 0x80) : (pyLower c).toNat < 0x80 := by
  rw [pyLower_toNat]
  split_ifs with hu
  · have h2 : c.toNat ≤ 90 := char_le_iff.mp hu.2
    omega
  · exact h

/-- `pyLower` maps nothing to NUL except NUL itself. -/
theorem pyLower_ne_nul (c : Char) (h : c ≠ Char.ofNat 0) : pyLower c ≠ Char.ofNat 0 := by
  have hA : ('A').toNat = 65 := by decide
  have h0 : (Char.ofNat 0).toNat = 0 := by decide
  simp only [ne_eq, char_eq_iff, h0] at h ⊢
  rw [pyLower_toNat]
  split_ifs with hu
  · have h1 : 65 ≤ c.toNat := hA ▸ char_le_iff.mp hu.1
    simp
  · exact h

/-- Characters in the lower-case ASCII letter range are not illegal. -/
theorem isIllegalChar_of_lower {d : Char} (h1 : 97 ≤ d.toNat) (h2 : d.toNat ≤ 122) :
    isIllegalChar d = false := by
  rw [Bool.eq_false_iff]
  intro hc
  simp only [isIllegalChar, illegalChars, List.contains, List.elem_eq_mem,
    decide_eq_true_eq, List.mem_cons, List.not_mem_nil, or_false] at hc
  rcases hc with rfl|rfl|rfl|rfl|rfl|rfl|rfl|rfl|rfl|rfl|rfl|rfl|rfl|rfl|rfl|rfl|rfl|rfl|rfl|rfl <;>
    revert h1 h2 <;> decide

/-- `pyLower` preserves legality. -/
theorem pyLower_not_illegal (c : Char) (h : isIllegalChar c = false) :
    isIllegalChar (pyLower c) = false := by
  by_cases hu : 'A' ≤ c ∧ c ≤ 'Z'
  · apply isIllegalChar_of_lower <;> rw [pyLower_toNat, if_pos hu]
    · have h1 : 65 ≤ c.toNat := char_le_iff.mp hu.1
      omega
    · have h2 : c.toNat ≤ 90 := char_le_iff.mp hu.2
      omega
  · rwa [pyLower_eq_self c hu]

/-- Every character of a replacement result comes from the input or from the
replacement string. -/
theorem strReplaceGo_subset (pat rep : Str) :
    ∀ fuel s, ∀ c ∈ strReplaceGo pat rep fuel s, c ∈ s ∨ c ∈ rep := by
  intro fuel
  induction fuel with
  | zero =>
    intro s c h
    cases s with
    | nil => simp [strReplaceGo] at h
    | cons a t => exact Or.inl (by simpa [strReplaceGo] using h)
  | succ n ih =>
    intro s c h
    cases s with
    | nil => simp [strReplaceGo] at h
    | cons a t =>
      simp only [strReplaceGo] at h
      split at h
      · rcases List.mem_append.mp h with h1 | h2
        · exact Or.inr h1
        · rcases ih _ c h2 with h3 | h4
          · exact Or.inl (List.drop_subset _ _ h3)
          · exact Or.inr h4
      · rcases List.mem_cons.mp h with rfl | h2
        · exact Or.inl (List.mem_cons_self _ _)
        · rcases ih t c h2 with h3 | h4
          · exact Or.inl (List.mem_cons_of_mem _ h3)
          · exact Or.inr h4

/-- Replacement of a pattern that does not occur is the identity. -/
theorem strReplaceGo_eq_of_not_occurs (pat rep : Str) :
    ∀ fuel s, occurs pat s = false → strReplaceGo pat rep fuel s = s := by
  intro fuel
  induction fuel with
  | zero => intro s _; cases s <;> simp [strReplaceGo]
  | succ n ih =>
    intro s h
    cases s with
    | nil => simp [strReplaceGo]
    | cons a t =>
      simp only [occurs, Bool.or_eq_false_iff] at h
      simp only [strReplaceGo, h.1, if_false, Bool.false_eq_true]
      rw [ih t h.2]

/-- Replacement of a pattern that does not occur is the identity. -/
theorem strReplace_eq_of_not_occurs (pat rep s : Str) (h : occurs pat s = false) :
    strReplace pat rep s = s :=
  strReplaceGo_eq_of_not_occurs pat rep s.length s h

/-- A single character that is not a member does not occur as a substring. -/
theorem not_occurs_single (a : Char) : ∀ s : Str, a ∉ s → occurs [a] s = false := by
  intro s
  induction s with
  | nil => intro _; rfl
  | cons b t ih =>
    intro h
    simp only [List.mem_cons, not_or] at h
    simp only [occurs, Bool.or_eq_false_iff]
    refine ⟨?_, ih h.2⟩
    simp only [List.isPrefixOf, Bool.and_eq_false_iff, beq_eq_false_iff_ne, ne_eq]
    exact Or.inl h.1

/-- Deleting the single-character pattern `[a]` removes every `a` when the
fuel covers the input. -/
theorem strReplaceGo_delete_all (a : Char) :
    ∀ fuel s, s.length ≤ fuel → a ∉ strReplaceGo [a] [] fuel s := by
  intro fuel
  induction fuel with
  | zero =>
    intro s hf
    have : s = [] := List.eq_nil_of_length_eq_zero (Nat.le_zero.mp hf)
    subst this
    simp [strReplaceGo]
  | succ n ih =>
    intro s hf
    cases s with
    | nil => simp [strReplaceGo]
    | cons b t =>
      simp only [strReplaceGo]
      split
      · next hpre =>
        simp only [List.nil_append]
        have := List.isPrefixOf_iff_prefix.mp hpre
        simp only [List.length_cons] at hf
        exact ih _ (by simp; omega)
      · next hpre =>
        intro hmem
        rcases List.mem_cons.mp hmem with rfl | h2
        · apply hpre
          simp [List.isPrefixOf]
        · exact ih t (by simp at hf; omega) h2

/-- NUL stripping (`.replace('\00', '')`) leaves no NUL character. -/
theorem nul_not_mem_strip (s : Str) : Char.ofNat 0 ∉ strReplace [Char.ofNat 0] [] s :=
  strReplaceGo_delete_all _ _ s (Nat.le_refl _)

/-- Characters of `markupSubGo` come from the input. -/
theorem markupSubGo_subset :
    ∀ fuel s, ∀ c ∈ markupSubGo fuel s, c ∈ s := by
  intro fuel
  induction fuel with
  | zero =>
    intro s c h
    cases s with
    | nil => simp [markupSubGo] at h
    | cons a t => simpa [markupSubGo] using h
  | succ n ih =>
    intro s c h
    cases s with
    | nil => simp [markupSubGo] at h
    | cons a t =>
      simp only [markupSubGo] at h
      split at h
      · next ha =>
        subst ha
        split at h
        · next i _ => exact List.mem_cons_of_mem _ (List.drop_subset _ _ (ih _ c h))
        · rcases List.mem_cons.mp h with rfl | h2
          · exact List.mem_cons_self _ _
          · exact List.mem_cons_of_mem _ (ih _ c h2)
      · rcases List.mem_cons.mp h with rfl | h2
        · exact List.mem_cons_self _ _
        · exact List.mem_cons_of_mem _ (ih _ c h2)

/-- `markupSub` is the identity on bracket-free strings. -/
theorem markupSubGo_eq_of_no_bracket :
    ∀ fuel s, '[' ∉ s → markupSubGo fuel s = s := by
  intro fuel
  induction fuel with
  | zero => intro s _; cases s <;> simp [markupSubGo]
  | succ n ih =>
    intro s h
    cases s with
    | nil => simp [markupSubGo]
    | cons a t =>
      simp only [List.mem_cons, not_or] at h
      simp only [markupSubGo]
      rw [if_neg (fun he => h.1 he.symm), ih t h.2]

/-- `unescape` returns its argument unchanged when there is no `&`. -/
theorem unescapeOnce_of_not_mem {s : Str} (h : '&' ∉ s) : unescapeOnce s = s := by
  have hc : s.contains '&' = false := by
    simp only [List.contains, List.elem_eq_mem, decide_eq_false_iff_not]
    exact h
  simp only [unescapeOnce, hc, Bool.false_eq_true, if_false]

/-- The entity-decode loop fixes `&`-free strings regardless of fuel. -/
theorem unescapeFix_of_not_mem (fuel : Nat) {s : Str} (h : '&' ∉ s) :
    unescapeFix fuel s = s := by
  cases fuel with
  | zero => rfl
  | succ n => simp [unescapeFix, unescapeOnce_of_not_mem h]

/-- Characters that `unidecodeChar` can output: the input itself, or one of
the finitely many transliteration characters of the table. -/
theorem unidecodeChar_mem {d c : Char} (h : d ∈ unidecodeChar c) :
    d = c ∨ d ∈ ['e', 'E', 'a', '<', '>', ' '] := by
  unfold unidecodeChar at h
  split_ifs at h <;> simp_all

/-- `unidecodeChar` only outputs ASCII characters. -/
theorem unidecodeChar_ascii {d c : Char} (h : d ∈ unidecodeChar c) : d.toNat < 0x80 := by
  unfold unidecodeChar at h
  split_ifs at h with h1 <;> simp_all

/-- Membership in a transliterated string. -/
theorem mem_decode {d : Char} {s : Str} (h : d ∈ decode s) :
    ∃ c ∈ s, d ∈ unidecodeChar c := by
  simp only [decode, List.mem_flatten, List.mem_map] at h
  obtain ⟨l, ⟨c, hc, rfl⟩, hd⟩ := h
  exact ⟨c, hc, hd⟩

/-- Transliteration outputs only ASCII. -/
theorem decode_ascii_out {d : Char} {s : Str} (h : d ∈ decode s) : d.toNat < 0x80 := by
  obtain ⟨c, _, hd⟩ := mem_decode h
  exact unidecodeChar_ascii hd

/-- Transliteration fixes ASCII strings. -/
theorem decode_of_ascii {s : Str} (h : ∀ c ∈ s, c.toNat < 0x80) : decode s = s := by
  induction s with
  | nil => rfl
  | cons a t ih =>
    have ha : unidecodeChar a = [a] := by
      unfold unidecodeChar
      rw [if_pos (h a (List.mem_cons_self a t))]
    simp only [decode, List.map_cons, List.flatten_cons, ha]
    rw [show (t.map unidecodeChar).flatten = decode t from rfl, ih (fun c hc => h c (List.mem_cons_of_mem _ hc))]
    rfl

/-- The illegal-character substitution never outputs an illegal character. -/
theorem mem_illegalSub {c : Char} {s : Str} (h : c ∈ illegalSub s) :
    isIllegalChar c = false ∧ (c ∈ s ∨ c = '_') := by
  simp only [illegalSub, List.mem_map] at h
  obtain ⟨a, ha, rfl⟩ := h
  split_ifs with hi
  · exact ⟨by decide, Or.inr rfl⟩
  · exact ⟨Bool.eq_false_iff.mpr hi, Or.inl ha⟩

/-- Characters of a replacement result, at the wrapper level. -/
theorem strReplace_subset (pat rep s : Str) :
    ∀ c ∈ strReplace pat rep s, c ∈ s ∨ c ∈ rep :=
  strReplaceGo_subset pat rep s.length s

/-- `markupSub` only drops characters. -/
theorem markupSub_subset (s : Str) : ∀ c ∈ markupSub s, c ∈ s :=
  markupSubGo_subset s.length s

/-- `markupSub` fixes bracket-free strings. -/
theorem markupSub_of_no_bracket {s : Str} (h : '[' ∉ s) : markupSub s = s :=
  markupSubGo_eq_of_no_bracket s.length s h

/-- The sanitizer only outputs ASCII characters. -/
theorem cleanup_ascii (s : Str) : ∀ c ∈ cleanup_uipathcomponent s, c.toNat < 0x80 := by
  intro c hc
  simp only [cleanup_uipathcomponent, List.mem_map] at hc
  obtain ⟨d, hd, rfl⟩ := hc
  exact pyLower_ascii d (decode_ascii_out hd)

/-- The sanitizer's output is already lower-cased. -/
theorem cleanup_lower_fixed (s : Str) :
    (cleanup_uipathcomponent s).map pyLower = cleanup_uipathcomponent s := by
  simp only [cleanup_uipathcomponent]
  exact map_pyLower_idem _

/-- Claim C6, counterexample: the entity-decode step runs before the
illegal-character substitution and the final transliteration runs after it,
so `&#0;` sanitizes to a literal NUL and `&laquo;` sanitizes to `<<`,
which contains the illegal character `<`. -/
theorem c6_cex_entity_nul :
    Char.ofNat 0 ∈ cleanup_uipathcomponent "&#0;".toList ∧
    '<' ∈ cleanup_uipathcomponent "&laquo;".toList ∧
    isIllegalChar '<' = true ∧ isIllegalChar (Char.ofNat 0) = false := by
  decide

/-- C6 (amended): `sanitize` is a pure function of its input (immediate in
this model), and for every input containing no `&` — so that entity decoding
cannot manufacture new characters — its output contains no character of the
illegal class and no literal NUL. -/
theorem c6_amended_charset (s : Str) (hamp : '&' ∉ s) :
    ∀ c ∈ cleanup_uipathcomponent s, isIllegalChar c = false ∧ c ≠ Char.ofNat 0 := by
  intro c hc
  simp only [cleanup_uipathcomponent] at hc
  set t0 := strReplace [Char.ofNat 0] [] s with ht0
  have ht0amp : '&' ∉ t0 := by
    intro hm
    rcases strReplace_subset _ _ _ '&' hm with h | h
    · exact hamp h
    · simp at h
  have hs0amp : '&' ∉ decode t0 := by
    intro hm
    obtain ⟨d, hd, hu⟩ := mem_decode hm
    rcases unidecodeChar_mem hu with rfl | hx
    · exact ht0amp hd
    · exact absurd hx (by decide)
  have hs0nul : Char.ofNat 0 ∉ decode t0 := by
    intro hm
    obtain ⟨d, hd, hu⟩ := mem_decode hm
    rcases unidecodeChar_mem hu with rfl | hx
    · exact nul_not_mem_strip s hd
    · exact absurd hx (by decide)
  have hs1amp : '&' ∉ markupSub (decode t0) := fun hm => hs0amp (markupSub_subset _ _ hm)
  have hs1nul : Char.ofNat 0 ∉ markupSub (decode t0) :=
    fun hm => hs0nul (markupSub_subset _ _ hm)
  rw [unescapeFix_of_not_mem _ hs1amp] at hc
  set s3 := illegalSub (markupSub (decode t0)) with hs3
  have hs3ill : ∀ d ∈ s3, isIllegalChar d = false := fun d hd => (mem_illegalSub hd).1
  have hs3nul : Char.ofNat 0 ∉ s3 := by
    intro hm
    rcases (mem_illegalSub hm).2 with h | h
    · exact hs1nul h
    · exact absurd h (by decide)
  set s4a := strReplace "__".toList "_".toList s3 with hs4a
  have hs4a_ill : ∀ d ∈ s4a, isIllegalChar d = false := by
    intro d hd
    rcases strReplace_subset _ _ _ d hd with h | h
    · exact hs3ill d h
    · simp at h; subst h; decide
  have hs4a_nul : Char.ofNat 0 ∉ s4a := by
    intro hm
    rcases strReplace_subset _ _ _ _ hm with h | h
    · exact hs3nul h
    · simp at h
  set s4 := strReplace "_-_".toList "-".toList s4a with hs4
  have hs4_ill : ∀ d ∈ s4, isIllegalChar d = false := by
    intro d hd
    rcases strReplace_subset _ _ _ d hd with h | h
    · exact hs4a_ill d h
    · simp at h; subst h; decide
  have hs4_nul : Char.ofNat 0 ∉ s4 := by
    intro hm
    rcases strReplace_subset _ _ _ _ hm with h | h
    · exact hs4a_nul h
    · simp at h
  simp only [List.mem_map] at hc
  obtain ⟨d, hd, rfl⟩ := hc
  obtain ⟨e, he, hu⟩ := mem_decode hd
  have hde : d = e ∨ d ∈ ['e', 'E', 'a', '<', '>', ' '] := unidecodeChar_mem hu
  -- every character of s4 is ASCII, so the transliteration is the identity
  have hd4 : d ∈ s4 := by
    rcases hde with rfl | hx
    · exact he
    · -- the table characters only arise from non-ASCII input characters
      have : e.toNat < 0x80 := by
        rcases strReplace_subset _ _ _ e he with h | h
        · rcases strReplace_subset _ _ _ e h with h2 | h2
          · rcases (mem_illegalSub h2).2 with h3 | h3
            · exact decode_ascii_out (markupSub_subset _ _ h3)
            · subst h3; decide
          · simp at h2; subst h2; decide
        · simp at h; subst h; decide
      rw [show unidecodeChar e = [e] from by unfold unidecodeChar; rw [if_pos this]] at hu
      simp at hu
      subst hu
      exact he
  exact ⟨pyLower_not_illegal d (hs4_ill d hd4),
         pyLower_ne_nul d (fun h => hs4_nul (h ▸ hd4))⟩

/-- Witness for `c6_amended_charset` at a concrete ampersand-free input. -/
theorem c6_witness :
    '&' ∉ "My Photos".toList ∧
    ∀ c ∈ cleanup_uipathcomponent "My Photos".toList,
      isIllegalChar c = false ∧ c ≠ Char.ofNat 0 :=
  ⟨by decide, c6_amended_charset "My Photos".toList (by decide)⟩

/-- Claim C7, counterexample: the collapse `replace('__', '_')` is a single
left-to-right pass, so four underscores collapse to two and a second
application of the sanitizer changes the string again. -/
theorem c7_cex_not_idempotent :
    cleanup_uipathcomponent (cleanup_uipathcomponent "____".toList) ≠
      cleanup_uipathcomponent "____".toList := by
  decide

/-- C7 (amended): the sanitizer is a fixed point on its own output only when
that output is free of NUL, of illegal characters, and of residual `__` or
`_-_` patterns; in general re-application is not a no-op (see the
counterexample `____ ↦ __ ↦ _`). -/
theorem c7_amended_fixed_point (s : Str)
    (hnul : Char.ofNat 0 ∉ cleanup_uipathcomponent s)
    (hill : ∀ c ∈ cleanup_uipathcomponent s, isIllegalChar c = false)
    (hocc1 : occurs "__".toList (cleanup_uipathcomponent s) = false)
    (hocc2 : occurs "_-_".toList (cleanup_uipathcomponent s) = false) :
    cleanup_uipathcomponent (cleanup_uipathcomponent s) = cleanup_uipathcomponent s := by
  have hascii := cleanup_ascii s
  have hlow := cleanup_lower_fixed s
  set o := cleanup_uipathcomponent s with ho
  have hbr : '[' ∉ o := fun hm => absurd (hill _ hm) (by decide)
  have hamp : '&' ∉ o := fun hm => absurd (hill _ hm) (by decide)
  have hisub : illegalSub o = o :=
    map_eq_self_of_fix (fun c hcm => by simp [hill c hcm])
  show cleanup_uipathcomponent o = o
  simp only [cleanup_uipathcomponent]
  rw [strReplace_eq_of_not_occurs _ _ _ (not_occurs_single _ _ hnul),
    decode_of_ascii hascii, markupSub_of_no_bracket hbr, unescapeFix_of_not_mem _ hamp,
    hisub, strReplace_eq_of_not_occurs _ _ _ hocc1, strReplace_eq_of_not_occurs _ _ _ hocc2,
    decode_of_ascii hascii, hlow]

/-- Witness for `c7_amended_fixed_point` at a concrete input. -/
theorem c7_witness :
    cleanup_uipathcomponent (cleanup_uipathcomponent "Hello World".toList) =
      cleanup_uipathcomponent "Hello World".toList :=
  c7_amended_fixed_point "Hello World".toList (by decide) (by decide) (by decide) (by decide)

/-- Python truthiness of `row[3] or row[5]` over two possibly-NULL fields:
`None` and the empty string select the second operand, which is returned
as-is (possibly `None`). -/
def pyOrOpt (a b : Option Str) : Option Str :=
  match a with
  | some s => if s = [] then b else some s
  | none => b

/-- The walker's title computation `cleanup_uipathcomponent(row[3] or row[5])`
(extract.py line 496) over fully optional database fields.  The result
`none` models the `AttributeError` raised by `cleanup_uipathcomponent(None)`
(its first step calls `.replace` on the argument). -/
def title_of_row (t pc : Option Str) : Option Str :=
  Option.map cleanup_uipathcomponent (pyOrOpt t pc)

/-- Claim C8, counterexample: with both title and path component empty the
title expression evaluates to the sanitized empty string, not to a constant
`"notitle"` (no such constant exists in extract.py); with both fields NULL
the computation crashes rather than produce any name. -/
theorem c8_cex_no_notitle :
    title_of_row (some []) (some []) = some ([] : Str) ∧
    ([] : Str) ≠ "notitle".toList ∧
    title_of_row none none = none := by
  refine ⟨by decide, by decide, rfl⟩

/-- C8 (amended): a missing or empty raw title is substituted by the raw
path component before sanitizing, but there is no `"notitle"` fallback:
empty title and empty path component give the empty name, and NULL title
with NULL path component crashes (`none`). -/
theorem c8_amended_fallback (pc : Str) :
    title_of_row none (some pc) = some (cleanup_uipathcomponent pc) ∧
    title_of_row (some []) (some pc) = some (cleanup_uipathcomponent pc) ∧
    title_of_row none none = none := by
  refine ⟨rfl, by simp [title_of_row, pyOrOpt], rfl⟩

/-- A successful `isPrefixOf` exhibits the tail. -/
theorem isPrefixOf_exists {p s : Str} (h : List.isPrefixOf p s = true) :
    ∃ t, s = p ++ t := by
  induction p generalizing s with
  | nil => exact ⟨s, rfl⟩
  | cons a p ih =>
    cases s with
    | nil => simp [List.isPrefixOf] at h
    | cons b t =>
      simp only [List.isPrefixOf, Bool.and_eq_true, beq_iff_eq] at h
      obtain ⟨rfl, h2⟩ := h
      obtain ⟨t', rfl⟩ := ih h2
      exact ⟨t', rfl⟩

/-- Out of fuel, the replacement scanner returns a non-empty input as is. -/
theorem strReplaceGo_zero_of_ne {pat rep s : Str} (h : s ≠ []) :
    strReplaceGo pat rep 0 s = s := by
  cases s with
  | nil => exact absurd rfl h
  | cons a t => rfl

/-- Replacing `.jpg.jpg` by `.jpg` preserves the `.jpg` suffix, for any
amount of fuel. -/
theorem jpg_suffix_go :
    ∀ fuel s, (∃ y : Str, s = y ++ ".jpg".toList) →
      ∃ z : Str, strReplaceGo ".jpg.jpg".toList ".jpg".toList fuel s = z ++ ".jpg".toList := by
  intro fuel
  induction fuel with
  | zero =>
    intro s hs
    rw [strReplaceGo_zero_of_ne]
    · exact hs
    · obtain ⟨y, rfl⟩ := hs
      simp
  | succ n ih =>
    intro s hs
    obtain ⟨y, hy⟩ := hs
    rcases hc : s with _ | ⟨a, t⟩
    · rw [hc] at hy
      exact absurd hy.symm (by simp)
    · rw [hc] at hy
      simp only [strReplaceGo]
      split
      · next hpre =>
        obtain ⟨t', ht'⟩ := isPrefixOf_exists hpre
        have heq : ".jpg.jpg".toList ++ t' = y ++ ".jpg".toList := by rw [← ht', ← hy]
        have hlen : t'.length + 8 = y.length + 4 := by
          have := congrArg List.length heq
          simpa using this
        have hdrop : List.drop (".jpg.jpg".toList).length (a :: t) = t' := by
          rw [ht', List.drop_left]
        rw [hdrop]
        rcases t' with _ | ⟨b1, t1⟩
        · refine ⟨[], ?_⟩
          have hnil : strReplaceGo ".jpg.jpg".toList ".jpg".toList n ([] : Str) = [] := by
            cases n <;> rfl
          rw [hnil]
          simp
        rcases t1 with _ | ⟨b2, t2⟩
        · -- |t'| = 1, so |y| = 5: contradiction with the shape of `.jpg.jpg`
          exfalso
          have hy5 : y.length = 5 := by simp at hlen; omega
          have h5 : List.drop 5 (y ++ ".jpg".toList) = ".jpg".toList := by
            have := List.drop_left y (".jpg".toList)
            rwa [hy5] at this
          rw [← heq] at h5
          have h5a : ('j' :: 'p' :: 'g' :: b1 :: [] : Str) = '.' :: 'j' :: 'p' :: 'g' :: [] := h5
          rcases List.cons_eq_cons.mp h5a with ⟨h1, _⟩
          exact absurd h1 (by decide)
        rcases t2 with _ | ⟨b3, t3⟩
        · exfalso
          have hy6 : y.length = 6 := by simp at hlen; omega
          have h6 : List.drop 6 (y ++ ".jpg".toList) = ".jpg".toList := by
            have := List.drop_left y (".jpg".toList)
            rwa [hy6] at this
          rw [← heq] at h6
          have h6a : ('p' :: 'g' :: b1 :: b2 :: [] : Str) = '.' :: 'j' :: 'p' :: 'g' :: [] := h6
          rcases List.cons_eq_cons.mp h6a with ⟨h1, _⟩
          exact absurd h1 (by decide)
        rcases t3 with _ | ⟨b4, t4⟩
        · exfalso
          have hy7 : y.length = 7 := by simp at hlen; omega
          have h7 : List.drop 7 (y ++ ".jpg".toList) = ".jpg".toList := by
            have := List.drop_left y (".jpg".toList)
            rwa [hy7] at this
          rw [← heq] at h7
          have h7a : ('g' :: b1 :: b2 :: b3 :: [] : Str) = '.' :: 'j' :: 'p' :: 'g' :: [] := h7
          rcases List.cons_eq_cons.mp h7a with ⟨h1, _⟩
          exact absurd h1 (by decide)
        · -- |t'| ≥ 4, so the `.jpg` suffix survives into the recursive call
          have hylen : 8 ≤ y.length := by simp at hlen; omega
          have hsub : b1 :: b2 :: b3 :: b4 :: t4 = List.drop 8 y ++ ".jpg".toList := by
            have h1 : List.drop 8 (".jpg.jpg".toList ++ (b1 :: b2 :: b3 :: b4 :: t4)) =
                b1 :: b2 :: b3 :: b4 :: t4 := by
              rw [show (8 : Nat) = (".jpg.jpg".toList).length from rfl, List.drop_left]
            rw [← h1, heq, List.drop_append_eq_append_drop,
              show (8 - y.length) = 0 by omega, List.drop_zero]
          obtain ⟨z, hz⟩ := ih _ ⟨List.drop 8 y, hsub⟩
          exact ⟨".jpg".toList ++ z, by rw [hz, List.append_assoc]⟩
      · next hpre =>
        -- no match at the head: recurse on the tail
        rcases y with _ | ⟨c0, y0⟩
        · -- s = ".jpg" itself: the pattern never fires inside it
          simp only [List.nil_append] at hy
          have hy2 : a :: t = '.' :: ('j' :: 'p' :: 'g' :: [] : Str) := hy
          rcases List.cons_eq_cons.mp hy2 with ⟨rfl, rfl⟩
          refine ⟨[], ?_⟩
          have h1 : strReplaceGo ".jpg.jpg".toList ".jpg".toList n
              ('j' :: 'p' :: 'g' :: [] : Str) = 'j' :: 'p' :: 'g' :: [] :=
            strReplaceGo_eq_of_not_occurs _ _ n _ (by decide)
          rw [h1]
          rfl
        · rw [List.cons_append] at hy
          rcases List.cons_eq_cons.mp hy with ⟨rfl, rfl⟩
          obtain ⟨z, hz⟩ := ih (y0 ++ ".jpg".toList) ⟨y0, rfl⟩
          exact ⟨a :: z, by rw [hz]; rfl⟩

/-- `file_cfg['thumb_prefix']`, defaulted to `'t__'` by extract.py lines
26-27 when the configuration leaves it unset. -/
def thumbPref : Str := "t__".toList

/-- `get_link_target` from extract.py lines 316-336, restricted to the
filename computation (`full_path=False`); the `full_path=True` variant,
which prepends the output directory and lower-cases the whole path, is
modelled separately for the walker as `link_target_full`. -/
def get_link_target (uipathcomponent pathcomponent : Str) : Str :=
  let new_pathcomponent :=
    if pathcomponent ≠ [] ∧ uipathcomponent.map pyLower ≠ pathcomponent.map pyLower then
      "___".toList ++ pathcomponent
    else []
  strReplace ".jpg.jpg".toList ".jpg".toList
    ((uipathcomponent ++ new_pathcomponent ++ ".jpg".toList).map pyLower)

/-- `get_thumb_target` from extract.py lines 339-357, restricted to the
filename computation (`full_path=False`).  Note: unlike `get_link_target`,
the `'___' + pathcomponent` suffix is appended whenever the path component
is non-empty, without comparing it against the title. -/
def get_thumb_target (uipathcomponent pathcomponent : Str) : Str :=
  let pc := if pathcomponent ≠ [] then "___".toList ++ pathcomponent else pathcomponent
  strReplace ".jpg.jpg".toList ".jpg".toList
    ((thumbPref ++ uipathcomponent ++ pc ++ ".jpg".toList).map pyLower)

/-- The name normalization shared by both target functions: append `.jpg`,
lower-case, collapse a doubled `.jpg.jpg` (the "ugly workaround" comments of
extract.py lines 326 and 347). -/
def jpgName (s : Str) : Str :=
  strReplace ".jpg.jpg".toList ".jpg".toList ((s ++ ".jpg".toList).map pyLower)

/-- The `.jpg` collapse preserves the lower-cased form of its input. -/
theorem replace_jpg_lower_fixed (x : Str) :
    (strReplace ".jpg.jpg".toList ".jpg".toList (x.map pyLower)).map pyLower =
      strReplace ".jpg.jpg".toList ".jpg".toList (x.map pyLower) := by
  apply map_eq_self_of_fix
  intro c hc
  rcases strReplace_subset _ _ _ c hc with h | h
  · obtain ⟨d, _, rfl⟩ := List.mem_map.mp h
    exact pyLower_idem d
  · have h2 : c ∈ ('.' :: 'j' :: 'p' :: 'g' :: [] : Str) := h
    simp only [List.mem_cons, List.not_mem_nil, or_false] at h2
    rcases h2 with rfl | rfl | rfl | rfl <;> decide

/-- The `.jpg` collapse preserves the `.jpg` suffix (wrapper level). -/
theorem replace_jpg_suffix (s : Str) (h : ∃ y : Str, s = y ++ ".jpg".toList) :
    ∃ z : Str, strReplace ".jpg.jpg".toList ".jpg".toList s = z ++ ".jpg".toList :=
  jpg_suffix_go s.length s h

/-- Lower-casing a string that ends in `.jpg` gives a string that ends in
`.jpg`. -/
theorem map_pyLower_jpg_suffix (w : Str) :
    (w ++ ".jpg".toList).map pyLower = w.map pyLower ++ ".jpg".toList := by
  rw [List.map_append]
  rfl

/-- Claim C10: both generated filenames are fully lower-case and end in
`.jpg`, whatever the title and source extension. -/
theorem c10_names_lowercase_jpg (uipathcomponent pathcomponent : Str) :
    (get_link_target uipathcomponent pathcomponent).map pyLower =
        get_link_target uipathcomponent pathcomponent ∧
    (∃ y : Str, get_link_target uipathcomponent pathcomponent = y ++ ".jpg".toList) ∧
    (get_thumb_target uipathcomponent pathcomponent).map pyLower =
        get_thumb_target uipathcomponent pathcomponent ∧
    (∃ y : Str, get_thumb_target uipathcomponent pathcomponent = y ++ ".jpg".toList) := by
  refine ⟨?_, ?_, ?_, ?_⟩
  · exact replace_jpg_lower_fixed _
  · apply replace_jpg_suffix
    refine ⟨(uipathcomponent ++
      (if pathcomponent ≠ [] ∧ uipathcomponent.map pyLower ≠ pathcomponent.map pyLower then
        "___".toList ++ pathcomponent else [])).map pyLower, ?_⟩
    rw [← map_pyLower_jpg_suffix, List.append_assoc]
  · exact replace_jpg_lower_fixed _
  · apply replace_jpg_suffix
    refine ⟨(thumbPref ++ uipathcomponent ++
      (if pathcomponent ≠ [] then "___".toList ++ pathcomponent else pathcomponent)).map
        pyLower, ?_⟩
    rw [← map_pyLower_jpg_suffix, List.append_assoc, List.append_assoc]

/-- Claim C5, counterexample: with sanitized title equal to the path
component the claimed rule predicts a suffix-free thumbnail name
`t__sunset.jpg`, but `get_thumb_target` appends `___sunset` anyway. -/
theorem c5_cex_thumb_suffix :
    get_thumb_target "sunset".toList "sunset".toList = "t__sunset___sunset.jpg".toList ∧
    get_thumb_target "sunset".toList "sunset".toList ≠
      thumbPref ++ "sunset".toList ++ ".jpg".toList := by
  decide

/-- C5 (amended): for a non-empty path component, the link filename follows
the claimed rule — the `___` suffix appears exactly when sanitized title and
path component differ case-insensitively — but the thumbnail filename
carries the suffix unconditionally. -/
theorem c5_amended_suffix_rule (uipathcomponent pathcomponent : Str)
    (hne : pathcomponent ≠ []) :
    (uipathcomponent.map pyLower = pathcomponent.map pyLower →
        get_link_target uipathcomponent pathcomponent = jpgName uipathcomponent) ∧
    (uipathcomponent.map pyLower ≠ pathcomponent.map pyLower →
        get_link_target uipathcomponent pathcomponent =
          jpgName (uipathcomponent ++ "___".toList ++ pathcomponent)) ∧
    get_thumb_target uipathcomponent pathcomponent =
      jpgName (thumbPref ++ uipathcomponent ++ "___".toList ++ pathcomponent) := by
  refine ⟨?_, ?_, ?_⟩
  · intro he
    simp only [get_link_target, jpgName]
    rw [if_neg (by simp [he])]
    simp
  · intro hd
    simp only [get_link_target, jpgName]
    rw [if_pos ⟨hne, hd⟩]
    simp [List.append_assoc]
  · simp only [get_thumb_target, jpgName]
    rw [if_pos hne]
    simp [List.append_assoc]

/-- Witness for `c5_amended_suffix_rule` at a photo titled "sunset" stored
as "img001.jpg". -/
theorem c5_witness :
    get_link_target "sunset".toList "img001.jpg".toList =
      jpgName ("sunset".toList ++ "___".toList ++ "img001.jpg".toList) ∧
    get_thumb_target "sunset".toList "img001.jpg".toList =
      jpgName (thumbPref ++ "sunset".toList ++ "___".toList ++ "img001.jpg".toList) :=
  ⟨(c5_amended_suffix_rule "sunset".toList "img001.jpg".toList (by decide)).2.1 (by decide),
   (c5_amended_suffix_rule "sunset".toList "img001.jpg".toList (by decide)).2.2⟩

/-- Python 2 `int(round(q))` as used by `flat` (extract.py 149-154) on the
non-negative quantities of the crop computation: `round` rounds half away
from zero, which for non-negative arguments equals `⌊q + 1/2⌋`. -/
def pyRound (q : ℚ) : ℤ := ⌊q + 1 / 2⌋

/-- Geometry-level result of `cropped_thumbnail` (extract.py 174-208): the
crop box handed to `img.crop` in PIL order (left, upper, right, lower) —
`none` when the aspect ratios agree and no crop happens — and the output
size handed to `img.resize`. -/
structure CropResult where
  box : Option (ℤ × ℤ × ℤ × ℤ)
  outW : ℤ
  outH : ℤ
deriving DecidableEq

/-- `cropped_thumbnail(img, size)` from extract.py lines 174-208, with the
image replaced by its dimensions `(w, h)`, the target by `(tw, th)`, and
Python's float arithmetic modelled as exact rational arithmetic.  The
`Size.aspect_ratio` properties are inlined as the division expressions. -/
def cropped_thumbnail (w h tw th : Nat) : CropResult :=
  let ow : ℚ := w
  let oh : ℚ := h
  let gw : ℚ := tw
  let gh : ℚ := th
  if gw / gh > ow / oh then
    -- image is too tall: take some off the top and bottom
    let scale_factor := gw / ow
    let crop_h := gh / scale_factor
    let top_cut_line := (oh - crop_h) / 2
    { box := some (pyRound 0, pyRound top_cut_line, pyRound ow,
        pyRound (top_cut_line + crop_h)),
      outW := pyRound gw, outH := pyRound gh }
  else if gw / gh < ow / oh then
    -- image is too wide: take some off the sides
    let scale_factor := gh / oh
    let crop_w := gw / scale_factor
    let side_cut_line := (ow - crop_w) / 2
    { box := some (pyRound side_cut_line, pyRound 0,
        pyRound (side_cut_line + crop_w), pyRound oh),
      outW := pyRound gw, outH := pyRound gh }
  else
    { box := none, outW := pyRound gw, outH := pyRound gh }

/-- Upper floor bound for `pyRound`. -/
theorem pyRound_le (q : ℚ) : (pyRound q : ℚ) ≤ q + 1 / 2 := Int.floor_le _

/-- Lower floor bound for `pyRound`. -/
theorem lt_pyRound (q : ℚ) : q - 1 / 2 < (pyRound q : ℚ) := by
  have h := Int.lt_floor_add_one (q + 1 / 2)
  rw [pyRound]
  push_cast at h ⊢
  linarith

/-- `pyRound` of a non-negative rational is non-negative. -/
theorem pyRound_nonneg {q : ℚ} (h : 0 ≤ q) : 0 ≤ pyRound q :=
  Int.le_floor.mpr (by push_cast; linarith)

/-- `pyRound q ≤ n` whenever `q + 1/2 < n + 1`. -/
theorem pyRound_le_int {q : ℚ} {n : ℤ} (h : q + 1 / 2 < n + 1) : pyRound q ≤ n := by
  rw [pyRound, Int.floor_le_iff]
  linarith

/-- `pyRound` fixes integers (here: natural image dimensions). -/
theorem pyRound_natCast (n : Nat) : pyRound (n : ℚ) = n := by
  rw [pyRound, show ((n : ℚ) + 1 / 2) = ((n : ℤ) : ℚ) + (1 / 2 : ℚ) by push_cast; ring,
    Int.floor_int_add]
  norm_num

/-- `pyRound 0 = 0`. -/
theorem pyRound_zero : pyRound 0 = 0 := by
  rw [pyRound]
  norm_num

/-- Claim C9: for positive original and target dimensions the output is
resized to exactly the target size; no crop happens when the aspect ratios
agree; otherwise the crop box stays inside the image, its trims are
centered up to one pixel per axis, and its dimensions differ from a maximal
region of exactly the target aspect ratio by at most one pixel per edge. -/
theorem c9_crop_geometry (w h tw th : Nat)
    (hw : 0 < w) (hh : 0 < h) (htw : 0 < tw) (hth : 0 < th) :
    (cropped_thumbnail w h tw th).outW = tw ∧
    (cropped_thumbnail w h tw th).outH = th ∧
    (tw * h = th * w → (cropped_thumbnail w h tw th).box = none) ∧
    ∀ L U R B : ℤ, (cropped_thumbnail w h tw th).box = some (L, U, R, B) →
      (0 ≤ L ∧ 0 ≤ U ∧ R ≤ (w : ℤ) ∧ B ≤ (h : ℤ)) ∧
      |(L : ℚ) - ((w : ℚ) - (R : ℚ))| ≤ 1 ∧
      |(U : ℚ) - ((h : ℚ) - (B : ℚ))| ≤ 1 ∧
      ∃ cw ch : ℚ, 0 < cw ∧ 0 < ch ∧ cw * th = ch * tw ∧ (cw = w ∨ ch = h) ∧
        |((R : ℚ) - (L : ℚ)) - cw| ≤ 1 ∧ |((B : ℚ) - (U : ℚ)) - ch| ≤ 1 := by
  have hw' : (0 : ℚ) < (w : ℚ) := by exact_mod_cast hw
  have hh' : (0 : ℚ) < (h : ℚ) := by exact_mod_cast hh
  have htw' : (0 : ℚ) < (tw : ℚ) := by exact_mod_cast htw
  have hth' : (0 : ℚ) < (th : ℚ) := by exact_mod_cast hth
  simp only [cropped_thumbnail]
  split_ifs with h1 h2
  · -- too tall: crop top and bottom
    have hb : (w : ℚ) * th < (tw : ℚ) * h := by
      rw [gt_iff_lt, div_lt_div_iff₀ hh' hth'] at h1
      exact h1
    refine ⟨pyRound_natCast tw, pyRound_natCast th, ?_, ?_⟩
    · intro heq
      exfalso
      have : ((tw : ℚ) * h = (th : ℚ) * w) := by exact_mod_cast heq
      nlinarith
    · intro L U R B hbox
      simp only [Option.some.injEq, Prod.mk.injEq] at hbox
      obtain ⟨hL, hU, hR, hB⟩ := hbox
      subst hL; subst hU; subst hR; subst hB
      set c : ℚ := (th : ℚ) / ((tw : ℚ) / (w : ℚ)) with hcdef
      have hc : c = (th : ℚ) * w / tw := by rw [hcdef, div_div_eq_mul_div]
      have hcpos : 0 < c := by
        rw [hc]
        positivity
      have hclt : c < (h : ℚ) := by
        rw [hc, div_lt_iff₀ htw']
        nlinarith
      set x : ℚ := ((h : ℚ) - c) / 2 with hxdef
      have hx : 0 < x := by rw [hxdef]; linarith
      have hU1 : (pyRound x : ℚ) ≤ x + 1 / 2 := pyRound_le x
      have hU2 : x - 1 / 2 < (pyRound x : ℚ) := lt_pyRound x
      have hB1 : (pyRound (x + c) : ℚ) ≤ x + c + 1 / 2 := pyRound_le (x + c)
      have hB2 : x + c - 1 / 2 < (pyRound (x + c) : ℚ) := lt_pyRound (x + c)
      have hxc : 2 * x + c = (h : ℚ) := by rw [hxdef]; ring
      refine ⟨⟨?_, ?_, ?_, ?_⟩, ?_, ?_, ?_⟩
      · rw [pyRound_zero]
      · exact pyRound_nonneg (le_of_lt hx)
      · rw [pyRound_natCast]
      · apply pyRound_le_int
        push_cast
        linarith
      · rw [pyRound_zero, pyRound_natCast]
        simp
      · rw [abs_le]
        have hBle : (pyRound (x + c) : ℚ) ≤ (h : ℚ) := by
          have : pyRound (x + c) ≤ (h : ℤ) := by
            apply pyRound_le_int
            push_cast
            linarith
          exact_mod_cast this
        constructor <;> linarith
      · refine ⟨(w : ℚ), c, hw', hcpos, ?_, Or.inl rfl, ?_, ?_⟩
        · rw [hc, div_mul_cancel₀ _ (ne_of_gt htw')]
          ring
        · rw [pyRound_zero, pyRound_natCast]
          simp
        · rw [abs_le]
          constructor <;> linarith
  · -- too wide: crop left and right
    have hb : (tw : ℚ) * h < (w : ℚ) * th := by
      rw [div_lt_div_iff₀ hth' hh'] at h2
      exact h2
    refine ⟨pyRound_natCast tw, pyRound_natCast th, ?_, ?_⟩
    · intro heq
      exfalso
      have : ((tw : ℚ) * h = (th : ℚ) * w) := by exact_mod_cast heq
      nlinarith
    · intro L U R B hbox
      simp only [Option.some.injEq, Prod.mk.injEq] at hbox
      obtain ⟨hL, hU, hR, hB⟩ := hbox
      subst hL; subst hU; subst hR; subst hB
      set c : ℚ := (tw : ℚ) / ((th : ℚ) / (h : ℚ)) with hcdef
      have hc : c = (tw : ℚ) * h / th := by rw [hcdef, div_div_eq_mul_div]
      have hcpos : 0 < c := by
        rw [hc]
        positivity
      have hclt : c < (w : ℚ) := by
        rw [hc, div_lt_iff₀ hth']
        nlinarith
      set x : ℚ := ((w : ℚ) - c) / 2 with hxdef
      have hx : 0 < x := by rw [hxdef]; linarith
      have hL1 : (pyRound x : ℚ) ≤ x + 1 / 2 := pyRound_le x
      have hL2 : x - 1 / 2 < (pyRound x : ℚ) := lt_pyRound x
      have hR1 : (pyRound (x + c) : ℚ) ≤ x + c + 1 / 2 := pyRound_le (x + c)
      have hR2 : x + c - 1 / 2 < (pyRound (x + c) : ℚ) := lt_pyRound (x + c)
      have hxc : 2 * x + c = (w : ℚ) := by rw [hxdef]; ring
      refine ⟨⟨?_, ?_, ?_, ?_⟩, ?_, ?_, ?_⟩
      · exact pyRound_nonneg (le_of_lt hx)
      · rw [pyRound_zero]
      · apply pyRound_le_int
        push_cast
        linarith
      · rw [pyRound_natCast]
      · rw [abs_le]
        have hRle : (pyRound (x + c) : ℚ) ≤ (w : ℚ) := by
          have : pyRound (x + c) ≤ (w : ℤ) := by
            apply pyRound_le_int
            push_cast
            linarith
          exact_mod_cast this
        constructor <;> linarith
      · rw [pyRound_zero, pyRound_natCast]
        simp
      · refine ⟨c, (h : ℚ), hcpos, hh', ?_, Or.inr rfl, ?_, ?_⟩
        · rw [hc, div_mul_cancel₀ _ (ne_of_gt hth')]
          ring
        · rw [abs_le]
          constructor <;> linarith
        · rw [pyRound_zero, pyRound_natCast]
          simp
  · -- equal aspect ratios: no crop
    refine ⟨pyRound_natCast tw, pyRound_natCast th, fun _ => rfl, ?_⟩
    intro L U R B hbox
    simp at hbox

/-- Witness for `c9_crop_geometry` at a 400x300 image and the system's
default 150x150 target. -/
theorem c9_witness :
    (cropped_thumbnail 400 300 150 150).outW = 150 ∧
    (cropped_thumbnail 400 300 150 150).outH = 150 :=
  ⟨(c9_crop_geometry 400 300 150 150 (by decide) (by decide) (by decide) (by decide)).1,
   (c9_crop_geometry 400 300 150 150 (by decide) (by decide) (by decide) (by decide)).2.1⟩

/-- `posixpath.join` for two components: an absolute second component wins;
otherwise the components are glued with `/` unless the first is empty or
already ends in `/`. -/
def pjoin (a b : Str) : Str :=
  if b.head? = some '/' then b
  else if a = [] ∨ a.getLast? = some '/' then a ++ b
  else a ++ '/' :: b

/-- `('/'.join(xs))[1:]` — the relative path the script builds from a path
stack (whose bottom entry is the empty segment). -/
def relPath (xs : List Str) : Str := List.drop 1 (List.intercalate ['/'] xs)

/-- The directory of the script, an opaque absolute prefix of every path the
script touches; modelled as the empty string. -/
def SCRIPTDIR : Str := []

/-- `os.path.join(SCRIPTDIR, 'test', ('/'.join(uipath))[1:])` — the output
directory of the node whose (sanitized) path stack is `uipath`. -/
def testDir (uipath : List Str) : Str :=
  pjoin (pjoin SCRIPTDIR "test".toList) (relPath uipath)

/-- `orig_file` of `generate_content` (extract.py 390-393): the photo's
source file under the `gall` tree. -/
def orig_file_path (fspath : List Str) (pathcomponent : Str) : Str :=
  pjoin (pjoin (pjoin SCRIPTDIR "gall".toList) (relPath fspath)) pathcomponent

/-- `get_link_target(..., full_path=True)`: the output directory joined with
the link filename, the whole path lower-cased. -/
def link_target_full (uipath : List Str) (uipathcomponent pathcomponent : Str) : Str :=
  (pjoin (testDir uipath) (get_link_target uipathcomponent pathcomponent)).map pyLower

/-- `get_thumb_target(..., full_path=True)`. -/
def thumb_target_full (uipath : List Str) (uipathcomponent pathcomponent : Str) : Str :=
  (pjoin (testDir uipath) (get_thumb_target uipathcomponent pathcomponent)).map pyLower

/-- `album_target` of `generate_content` (extract.py 404-408): the album's
representative thumbnail, lower-cased with the `.jpg.jpg` collapse. -/
def album_target_full (uipath : List Str) : Str :=
  strReplace ".jpg.jpg".toList ".jpg".toList
    ((pjoin (testDir uipath) (thumbPref ++ "album.jpg".toList)).map pyLower)

/-- The filesystem visible to the script: existing directories, regular
files, and symlink names.  `os.path.exists` would resolve a symlink; the
script only creates links whose target it has just verified to exist, so
structural membership is a faithful model on every reachable state. -/
structure FS where
  dirs : List Str
  files : List Str
  links : List Str
deriving DecidableEq

/-- `os.path.exists`. -/
def fsExists (fs : FS) (p : Str) : Bool :=
  fs.dirs.contains p || fs.files.contains p || fs.links.contains p

/-- `os.path.isfile`, called by the script only on regular files (index
pages; source originals go through `World.srcIsFile`). -/
def fsIsFile (fs : FS) (p : Str) : Bool := fs.files.contains p

/-- `os.path.islink`. -/
def fsIsLink (fs : FS) (p : Str) : Bool := fs.links.contains p

/-- The filesystem mutations the script can perform. -/
inductive Eff where
  | mkdirp (p : Str)
  | writeFile (p : Str)
  | save (p : Str)
  | remove (p : Str)
  | symlink (src dst : Str)
deriving DecidableEq

/-- Run state: the filesystem, the two run counters (`missing_files` and
`all_files`, kept as the lists the script appends to), and the ordered log
of filesystem mutations performed so far. -/
structure RState where
  fs : FS
  missing : List Str
  allf : List Str
  effs : List Eff
deriving DecidableEq

/-- Idempotent insertion (creating an already-present entry changes no
state, though the effect is still logged by the caller). -/
def addIfAbsent (l : List Str) (p : Str) : List Str :=
  if l.contains p then l else l ++ [p]

/-- `os.makedirs`. -/
def doMkdir (p : Str) (st : RState) : RState :=
  { st with
    fs := { st.fs with dirs := addIfAbsent st.fs.dirs p }
    effs := st.effs ++ [Eff.mkdirp p] }

/-- `open(p, 'w')` followed by a write (index pages, style.css). -/
def doWriteFile (p : Str) (st : RState) : RState :=
  { st with
    fs := { st.fs with files := addIfAbsent st.fs.files p }
    effs := st.effs ++ [Eff.writeFile p] }

/-- `thumb.save(p, 'JPEG')`. -/
def doSave (p : Str) (st : RState) : RState :=
  { st with
    fs := { st.fs with files := addIfAbsent st.fs.files p }
    effs := st.effs ++ [Eff.save p] }

/-- `os.remove` of a stale album-thumbnail symlink. -/
def doRemove (p : Str) (st : RState) : RState :=
  { st with
    fs := { st.fs with links := st.fs.links.filter (fun q => q != p) }
    effs := st.effs ++ [Eff.remove p] }

/-- `os.symlink(srcp, dstp)`: creates the link at `dstp`. -/
def doSymlink (srcp dstp : Str) (st : RState) : RState :=
  { st with
    fs := { st.fs with links := addIfAbsent st.fs.links dstp }
    effs := st.effs ++ [Eff.symlink srcp dstp] }

/-- `missing_files.append`. -/
def addMissing (p : Str) (st : RState) : RState :=
  { st with missing := st.missing ++ [p] }

/-- `all_files.append`. -/
def addAll (p : Str) (st : RState) : RState :=
  { st with allf := st.allf ++ [p] }

/-- The command-line options consulted by the traversal (extract.py 66-137). -/
structure Config where
  dry_run : Bool
  force_thumbs : Bool
  no_thumbs : Bool
  ignore_albums : List Str
  only_albums : List Str

/-- The parts of the outside world the script only reads: whether a source
path is an existing file, and whether PIL can decode/encode the image at a
source path (the whole `try` block of extract.py 416-427 succeeding). -/
structure World where
  srcIsFile : Str → Bool
  imageOk : Str → Bool

/-- A `ChildSummary` as appended to `child_objects`:
`(output_name, display_title, itemtype)`. -/
abbrev Summary := Str × Str × Str

/-- The album entity type string of Gallery 2. -/
def albumType : Str := "GalleryAlbumItem".toList

/-- The photo entity type string of Gallery 2. -/
def photoType : Str := "GalleryPhotoItem".toList

/-- One row of the `SQL_GET_CHILDREN` result, restricted to the columns the
walker reads, with the children of the node attached in store order (the
store is assumed to present a tree).  A NULL `pathComponent` is modelled as
the empty string (`decode(None) = ''`; a row with NULL title and NULL
pathComponent would crash the title computation, see `title_of_row`). -/
inductive Row where
  | mk (itemtype : Str) (children_flag : Nat) (title : Option Str) (path0 : Str)
      (kids : List Row)

/-- Entity type of a row. -/
def Row.itemtype : Row → Str
  | .mk t _ _ _ _ => t

/-- `canContainChildren` of a row. -/
def Row.children_flag : Row → Nat
  | .mk _ c _ _ _ => c

/-- Raw title of a row. -/
def Row.title : Row → Option Str
  | .mk _ _ t _ _ => t

/-- Raw `pathComponent` of a row. -/
def Row.path0 : Row → Str
  | .mk _ _ _ p _ => p

/-- Children of a row in store order. -/
def Row.kids : Row → List Row
  | .mk _ _ _ _ k => k

/-- `generate_html` from extract.py lines 262-308: a no-op when the index
page already exists, otherwise the page is rendered and written.  The
rendered HTML text itself (driven by the summaries and the back-link flag)
is not modelled; only the file creation is. -/
def generate_html (html_filename : Str) (html_grandchildren : List Summary)
    (pathcomponent : Str) (st : RState) : RState :=
  if fsIsFile st.fs html_filename then st
  else doWriteFile html_filename st

/-- `generate_content` from extract.py lines 380-453, the photo
materializer.  The `try` block around `Image.open`/`cropped_thumbnail`/
`save` is modelled atomically through `World.imageOk` (a failure is taken
to happen before any write, the common `Image.open` case); a symlink
failure, fatal in the script (`sys.exit(1)`), is not modelled — link
creation succeeds. -/
def generate_content (cfg : Config) (w : World) (fspath uipath : List Str)
    (uipathcomponent pathcomponent : Str) (firstimage : Bool) (st : RState) :
    Bool × RState :=
  if cfg.dry_run then (true, st) else
  let orig_file := orig_file_path fspath pathcomponent
  let link_target := link_target_full uipath uipathcomponent pathcomponent
  let thumb_target := thumb_target_full uipath uipathcomponent pathcomponent
  let album_target := album_target_full uipath
  if ¬ w.srcIsFile orig_file then
    (true, addMissing orig_file st)
  else
    let thumbRes : Option RState :=
      if ((¬ fsExists st.fs thumb_target) ∧ ¬ cfg.no_thumbs) ∨ cfg.force_thumbs then
        if w.imageOk orig_file then
          let st1 := doSave thumb_target st
          let st2 :=
            if firstimage ∧ (fsIsLink st1.fs album_target ∨ ¬ fsExists st1.fs album_target) then
              doSave album_target
                (if fsIsLink st1.fs album_target then doRemove album_target st1 else st1)
            else st1
          some st2
        else none
      else some st
    match thumbRes with
    | none => (false, addMissing orig_file st)
    | some st2 =>
      if ¬ fsExists st2.fs link_target then
        (true, addAll orig_file (doSymlink orig_file link_target st2))
      else (true, st2)

/-- `get_children` from extract.py lines 479-547, over the row tree.  The
recursion is driven by an explicit fuel (decremented on every recursive
call, so any fuel at least the node count of the store plus the sibling
count of every level is enough); the mutable path stacks become the
`fspath`/`uipath` arguments (push on descent, and the caller's lists are
untouched on return — the pop); the loop-local `first_image` flag is
threaded through the recursion on the remaining rows.  The body of
`generate_album` (extract.py 360-377) is inlined in the album branch; the
standalone `generate_album` below is definitionally that inlined code. -/
def get_children (cfg : Config) (w : World) :
    Nat → List Row → List Str → List Str → Nat → Bool → RState → List Summary × RState
  | 0, _, _, _, _, _, st => ([], st)
  | _ + 1, [], _, _, _, _, st => ([], st)
  | fuel + 1, row :: rest, fspath, uipath, depth, first_image, st =>
    let itemtype := decode row.itemtype
    if ¬ ((itemtype = albumType ∧ row.children_flag = 1) ∨ itemtype = photoType) then
      get_children cfg w fuel rest fspath uipath depth first_image st
    else
      let title := cleanup_uipathcomponent (pyOrS row.title row.path0)
      let pathcomponent := decode row.path0
      if itemtype = albumType ∧ row.children_flag = 1 then
        if pathcomponent ∈ cfg.ignore_albums ∨ title ∈ cfg.ignore_albums then
          get_children cfg w fuel rest fspath uipath depth first_image st
        else if cfg.only_albums ≠ [] ∧ pathcomponent ∉ cfg.only_albums then
          get_children cfg w fuel rest fspath uipath depth first_image st
        else
          let fspath2 := fspath ++ [pathcomponent]
          let tmp_uipath := uipath ++ [title]
          -- generate_album, inlined: mkdir, recurse, write the index page
          let mkpath := testDir tmp_uipath
          let stA := if ¬ fsExists st.fs mkpath ∧ ¬ cfg.dry_run then doMkdir mkpath st else st
          let gcr := get_children cfg w fuel row.kids fspath2 tmp_uipath (depth + 1) true stA
          let stC :=
            if gcr.1 ≠ [] ∧ ¬ cfg.dry_run then
              generate_html (pjoin mkpath "index.html".toList) gcr.1 pathcomponent gcr.2
            else gcr.2
          -- album-thumbnail propagation (try/except OSError: pass)
          let link_target := pjoin (testDir tmp_uipath) (thumbPref ++ "album.jpg".toList)
          let link_source := pjoin (testDir tmp_uipath.dropLast) (thumbPref ++ "album.jpg".toList)
          let stD :=
            if ¬ fsExists stC.fs link_source ∧ fsExists stC.fs link_target then
              doSymlink link_target link_source stC
            else stC
          let res := get_children cfg w fuel rest fspath uipath depth first_image stD
          ((title, title, itemtype) :: res.1, res.2)
      else
        let con := generate_content cfg w fspath uipath title pathcomponent first_image st
        let res := get_children cfg w fuel rest fspath uipath depth
          (if con.1 then false else first_image) con.2
        (if con.1 then (pathcomponent, title, itemtype) :: res.1 else res.1, res.2)

/-- `generate_album` from extract.py lines 360-377: ensure the album's
output directory exists, fetch and process the children, and write the
index page only when the recursion returned a non-empty summary list.
`uipath` is the already-pushed path of the album itself; `row` stands for
the `itemid` whose children the SQL query would fetch. -/
def generate_album (cfg : Config) (w : World) (fuel : Nat) (row : Row)
    (fspath uipath : List Str) (depth : Nat) (pathcomponent : Str) (st : RState) :
    List Summary × RState :=
  let mkpath := testDir uipath
  let stA := if ¬ fsExists st.fs mkpath ∧ ¬ cfg.dry_run then doMkdir mkpath st else st
  let gcr := get_children cfg w fuel row.kids fspath uipath (depth + 1) true stA
  let stC :=
    if gcr.1 ≠ [] ∧ ¬ cfg.dry_run then
      generate_html (pjoin mkpath "index.html".toList) gcr.1 pathcomponent gcr.2
    else gcr.2
  (gcr.1, stC)

/-- `os.path.join(SCRIPTDIR, 'test', 'style.css')`. -/
def stylePath : Str := pjoin (pjoin SCRIPTDIR "test".toList) "style.css".toList

/-- `main` from extract.py lines 550-560: write `style.css`
(unconditionally, every run), walk the children of the root id, and write
the root index page (no emptiness check and no dry-run check at the root). -/
def main_run (cfg : Config) (w : World) (fuel : Nat) (root_kids : List Row)
    (st : RState) : RState :=
  let st0 := doWriteFile stylePath st
  let gcr := get_children cfg w fuel root_kids [[]] [[]] 0 true st0
  generate_html (pjoin (pjoin SCRIPTDIR "test".toList) "index.html".toList) gcr.1 [] gcr.2

/-- The filesystem state before the first run. -/
def emptyState : RState := ⟨⟨[], [], []⟩, [], [], []⟩

/-- Effect log of `doMkdir`. -/
theorem doMkdir_effs (p : Str) (st : RState) :
    (doMkdir p st).effs = st.effs ++ [Eff.mkdirp p] := rfl

/-- Effect log of `doWriteFile`. -/
theorem doWriteFile_effs (p : Str) (st : RState) :
    (doWriteFile p st).effs = st.effs ++ [Eff.writeFile p] := rfl

/-- Effect log of `doSave`. -/
theorem doSave_effs (p : Str) (st : RState) :
    (doSave p st).effs = st.effs ++ [Eff.save p] := rfl

/-- Effect log of `doRemove`. -/
theorem doRemove_effs (p : Str) (st : RState) :
    (doRemove p st).effs = st.effs ++ [Eff.remove p] := rfl

/-- Effect log of `doSymlink`. -/
theorem doSymlink_effs (a b : Str) (st : RState) :
    (doSymlink a b st).effs = st.effs ++ [Eff.symlink a b] := rfl

/-- Counter appends log no effect. -/
theorem addMissing_effs (p : Str) (st : RState) : (addMissing p st).effs = st.effs := rfl

/-- Counter appends log no effect. -/
theorem addAll_effs (p : Str) (st : RState) : (addAll p st).effs = st.effs := rfl

/-- `generate_html` never discards previously logged effects. -/
theorem generate_html_effs_mono {f : Str} {g : List Summary} {p : Str} {st : RState}
    {e : Eff} (he : e ∈ st.effs) : e ∈ (generate_html f g p st).effs := by
  unfold generate_html
  split
  · exact he
  · rw [doWriteFile_effs]
    exact List.mem_append_left _ he

/-- `generate_content` never discards previously logged effects. -/
theorem generate_content_effs_mono (cfg : Config) (w : World) (fspath uipath : List Str)
    (uic pc : Str) (fi : Bool) (st : RState) {e : Eff} (he : e ∈ st.effs) :
    e ∈ (generate_content cfg w fspath uipath uic pc fi st).2.effs := by
  have hsave : ∀ (p : Str) (s : RState), e ∈ s.effs → e ∈ (doSave p s).effs := by
    intro p s hs
    rw [doSave_effs]
    exact List.mem_append_left _ hs
  have hrem : ∀ (p : Str) (s : RState), e ∈ s.effs → e ∈ (doRemove p s).effs := by
    intro p s hs
    rw [doRemove_effs]
    exact List.mem_append_left _ hs
  simp only [generate_content]
  split
  · exact he
  split
  · exact he
  split
  · exact he
  next st2 heq =>
    have hst2 : e ∈ st2.effs := by
      split at heq
      · split at heq
        · injection heq with heq2
          rw [← heq2]
          split
          · apply hsave
            split
            · apply hrem
              exact hsave _ _ he
            · exact hsave _ _ he
          · exact hsave _ _ he
        · exact absurd heq (by simp)
      · injection heq with heq2
        rw [← heq2]
        exact he
    split
    · show e ∈ (addAll _ (doSymlink _ _ st2)).effs
      rw [addAll_effs, doSymlink_effs]
      exact List.mem_append_left _ hst2
    · exact hst2

/-- A conditional `os.makedirs` keeps logged effects. -/
theorem effs_mono_ite_mk {c : Prop} [Decidable c] (p : Str) (st : RState) {e : Eff}
    (he : e ∈ st.effs) : e ∈ (if c then doMkdir p st else st).effs := by
  split
  · rw [doMkdir_effs]
    exact List.mem_append_left _ he
  · exact he

/-- A conditional `os.symlink` keeps logged effects. -/
theorem effs_mono_ite_sym {c : Prop} [Decidable c] (a b : Str) (st : RState) {e : Eff}
    (he : e ∈ st.effs) : e ∈ (if c then doSymlink a b st else st).effs := by
  split
  · rw [doSymlink_effs]
    exact List.mem_append_left _ he
  · exact he

/-- A conditional index-page write keeps logged effects. -/
theorem effs_mono_ite_html {c : Prop} [Decidable c] (f : Str) (g : List Summary)
    (p : Str) (st : RState) {e : Eff} (he : e ∈ st.effs) :
    e ∈ (if c then generate_html f g p st else st).effs := by
  split
  · exact generate_html_effs_mono he
  · exact he

/-- The walker never discards previously logged effects. -/
theorem get_children_effs_mono (cfg : Config) (w : World) :
    ∀ fuel rows fspath uipath depth fi st, ∀ e ∈ st.effs,
      e ∈ (get_children cfg w fuel rows fspath uipath depth fi st).2.effs := by
  intro fuel
  induction fuel with
  | zero =>
    intro rows fspath uipath depth fi st e he
    exact he
  | succ n ih =>
    intro rows fspath uipath depth fi st e he
    cases rows with
    | nil => exact he
    | cons row rest =>
      simp only [get_children]
      split
      · exact ih _ _ _ _ _ _ e he
      split
      · split
        · exact ih _ _ _ _ _ _ e he
        split
        · exact ih _ _ _ _ _ _ e he
        · show e ∈ (get_children cfg w n rest fspath uipath depth fi _).2.effs
          apply ih
          apply effs_mono_ite_sym
          apply effs_mono_ite_html
          apply ih
          apply effs_mono_ite_mk
          exact he
      · show e ∈ (get_children cfg w n rest fspath uipath depth _ _).2.effs
        apply ih
        exact generate_content_effs_mono _ _ _ _ _ _ _ _ he

/-- `generate_content` performs no index-page write: any `writeFile` effect
in its output log was already in the input log. -/
theorem generate_content_writeFile (cfg : Config) (w : World) (fspath uipath : List Str)
    (uic pc : Str) (fi : Bool) (st : RState) (p : Str)
    (hmem : Eff.writeFile p ∈ (generate_content cfg w fspath uipath uic pc fi st).2.effs) :
    Eff.writeFile p ∈ st.effs := by
  have hsave : ∀ (q : Str) (s : RState),
      Eff.writeFile p ∈ (doSave q s).effs → Eff.writeFile p ∈ s.effs := by
    intro q s hs
    rw [doSave_effs] at hs
    rcases List.mem_append.mp hs with h | h
    · exact h
    · simp at h
  have hrem : ∀ (q : Str) (s : RState),
      Eff.writeFile p ∈ (doRemove q s).effs → Eff.writeFile p ∈ s.effs := by
    intro q s hs
    rw [doRemove_effs] at hs
    rcases List.mem_append.mp hs with h | h
    · exact h
    · simp at h
  simp only [generate_content] at hmem
  split at hmem
  · exact hmem
  split at hmem
  · exact hmem
  split at hmem
  · exact hmem
  next st2 heq =>
    have hst2 : Eff.writeFile p ∈ st2.effs → Eff.writeFile p ∈ st.effs := by
      intro h2
      split at heq
      · split at heq
        · injection heq with heq2
          rw [← heq2] at h2
          split at h2
          · have h3 := hsave _ _ h2
            split at h3
            · exact hsave _ _ (hrem _ _ h3)
            · exact hsave _ _ h3
          · exact hsave _ _ h2
        · exact absurd heq (by simp)
      · injection heq with heq2
        rw [← heq2] at h2
        exact h2
    split at hmem
    · have h4 : Eff.writeFile p ∈
          (addAll (orig_file_path fspath pc)
            (doSymlink (orig_file_path fspath pc) (link_target_full uipath uic pc) st2)).effs :=
        hmem
      rw [addAll_effs, doSymlink_effs] at h4
      rcases List.mem_append.mp h4 with h | h
      · exact hst2 h
      · simp at h
    · exact hst2 hmem

/-- When a walk of a row list returns no summaries it wrote no index page:
any `writeFile` effect in the output log was already in the input log
(skipped and filtered rows do nothing; an appended album or photo row would
make the summary list non-empty; a failed photo only saves thumbnails or
counters). -/
theorem get_children_empty_writeFile (cfg : Config) (w : World) :
    ∀ fuel rows fspath uipath depth fi st p,
      (get_children cfg w fuel rows fspath uipath depth fi st).1 = [] →
      Eff.writeFile p ∈ (get_children cfg w fuel rows fspath uipath depth fi st).2.effs →
      Eff.writeFile p ∈ st.effs := by
  intro fuel
  induction fuel with
  | zero =>
    intro rows fspath uipath depth fi st p _ hmem
    exact hmem
  | succ n ih =>
    intro rows fspath uipath depth fi st p hsum hmem
    cases rows with
    | nil => exact hmem
    | cons row rest =>
      simp only [get_children] at hsum hmem
      by_cases h1 : ¬((decode row.itemtype = albumType ∧ row.children_flag = 1) ∨
          decode row.itemtype = photoType)
      · rw [if_pos h1] at hsum hmem
        exact ih _ _ _ _ _ _ _ hsum hmem
      · rw [if_neg h1] at hsum hmem
        by_cases h2 : decode row.itemtype = albumType ∧ row.children_flag = 1
        · rw [if_pos h2] at hsum hmem
          by_cases h3 : decode row.path0 ∈ cfg.ignore_albums ∨
              cleanup_uipathcomponent (pyOrS row.title row.path0) ∈ cfg.ignore_albums
          · rw [if_pos h3] at hsum hmem
            exact ih _ _ _ _ _ _ _ hsum hmem
          · rw [if_neg h3] at hsum hmem
            by_cases h4 : cfg.only_albums ≠ [] ∧ decode row.path0 ∉ cfg.only_albums
            · rw [if_pos h4] at hsum hmem
              exact ih _ _ _ _ _ _ _ hsum hmem
            · rw [if_neg h4] at hsum hmem
              simp at hsum
        · rw [if_neg h2] at hsum hmem
          by_cases h5 : (generate_content cfg w fspath uipath
              (cleanup_uipathcomponent (pyOrS row.title row.path0))
              (decode row.path0) fi st).1 = true
          · rw [if_pos h5] at hsum
            simp at hsum
          · rw [if_neg h5] at hsum hmem
            exact generate_content_writeFile _ _ _ _ _ _ _ _ _
              (ih _ _ _ _ _ _ _ hsum hmem)

/-- The command line with no flags set. -/
def defaultConfig : Config := ⟨false, false, false, [], []⟩

/-- A world with no source files at all. -/
def noSourceWorld : World := ⟨fun _ => false, fun _ => false⟩

/-- An album row titled "a", stored as "A", with no children. -/
def emptyAlbumRow : Row := Row.mk albumType 1 (some "a".toList) "A".toList []

/-- Claim C1, counterexample: walking a store whose only row is an album
with no children creates the album's output directory (`os.makedirs` runs
before the recursion, unconditionally) even though the album's own walk
returns no summaries and no index page is written; the album still appears
in its parent's summary list. -/
theorem c1_cex_empty_album_mkdir :
    (get_children defaultConfig noSourceWorld 10 [emptyAlbumRow] [[]] [[]] 0 true
        emptyState).1 = [("a".toList, "a".toList, albumType)] ∧
    (get_children defaultConfig noSourceWorld 10 [emptyAlbumRow] [[]] [[]] 0 true
        emptyState).2.effs = [Eff.mkdirp "test/a".toList] := by
  decide

/-- C1 (amended): an album whose walk yields no eligible child summaries
gets no index page (no new `writeFile` effect), but its output directory is
still created — `generate_album` runs `os.makedirs` before recursing — and
the album still appears as an entry in its parent's summary list. -/
theorem c1_amended_empty_album :
    (∀ cfg w fuel row fspath uipath depth pc st p,
      (generate_album cfg w fuel row fspath uipath depth pc st).1 = [] →
      Eff.writeFile p ∈ (generate_album cfg w fuel row fspath uipath depth pc st).2.effs →
      Eff.writeFile p ∈ st.effs) ∧
    (∀ cfg w fuel row fspath uipath depth pc st,
      cfg.dry_run = false →
      fsExists st.fs (testDir uipath) = false →
      Eff.mkdirp (testDir uipath) ∈
        (generate_album cfg w fuel row fspath uipath depth pc st).2.effs) ∧
    (∀ cfg w fuel row rest fspath uipath depth fi st,
      decode row.itemtype = albumType → row.children_flag = 1 →
      decode row.path0 ∉ cfg.ignore_albums →
      cleanup_uipathcomponent (pyOrS row.title row.path0) ∉ cfg.ignore_albums →
      (cfg.only_albums = [] ∨ decode row.path0 ∈ cfg.only_albums) →
      ∃ tl, (get_children cfg w (fuel + 1) (row :: rest) fspath uipath depth fi st).1 =
        (cleanup_uipathcomponent (pyOrS row.title row.path0),
         cleanup_uipathcomponent (pyOrS row.title row.path0),
         decode row.itemtype) :: tl) := by
  refine ⟨?_, ?_, ?_⟩
  · intro cfg w fuel row fspath uipath depth pc st p hsum hmem
    simp only [generate_album] at hsum hmem
    rw [if_neg (fun hcon => absurd hsum hcon.1)] at hmem
    have h2 := get_children_empty_writeFile cfg w fuel row.kids fspath uipath (depth + 1)
      true _ p hsum hmem
    revert h2
    split
    · intro h2
      rw [doMkdir_effs] at h2
      rcases List.mem_append.mp h2 with h | h
      · exact h
      · simp at h
    · exact id
  · intro cfg w fuel row fspath uipath depth pc st hdry hex
    simp only [generate_album]
    apply effs_mono_ite_html
    apply get_children_effs_mono
    rw [if_pos (by simp [hex, hdry])]
    rw [doMkdir_effs]
    exact List.mem_append_right _ (by simp)
  · intro cfg w fuel row rest fspath uipath depth fi st halb hflag hig1 hig2 honly
    simp only [get_children]
    rw [if_neg (not_not_intro (Or.inl ⟨halb, hflag⟩)), if_pos ⟨halb, hflag⟩,
      if_neg (not_or_intro hig1 hig2),
      if_neg (by
        rintro ⟨hne, hnin⟩
        rcases honly with h | h
        · exact hne h
        · exact hnin h)]
    exact ⟨_, rfl⟩

/-- Witness for `c1_amended_empty_album` at the empty-album store. -/
theorem c1_witness :
    (Eff.writeFile "x".toList ∈
      (generate_album defaultConfig noSourceWorld 10 emptyAlbumRow
        [[], "A".toList] [[], "a".toList] 0 "A".toList
        ⟨⟨[], [], []⟩, [], [], [Eff.writeFile "x".toList]⟩).2.effs →
      Eff.writeFile "x".toList ∈ [Eff.writeFile "x".toList]) ∧
    Eff.mkdirp (testDir [[], "a".toList]) ∈
      (generate_album defaultConfig noSourceWorld 10 emptyAlbumRow
        [[], "A".toList] [[], "a".toList] 0 "A".toList emptyState).2.effs ∧
    ∃ tl, (get_children defaultConfig noSourceWorld 11 [emptyAlbumRow] [[]] [[]] 0 true
        emptyState).1 = ("a".toList, "a".toList, albumType) :: tl := by
  refine ⟨?_, ?_, ?_⟩
  · intro hmem
    exact c1_amended_empty_album.1 defaultConfig noSourceWorld 10 emptyAlbumRow
      [[], "A".toList] [[], "a".toList] 0 "A".toList
      ⟨⟨[], [], []⟩, [], [], [Eff.writeFile "x".toList]⟩ "x".toList (by decide) hmem
  · exact c1_amended_empty_album.2.1 defaultConfig noSourceWorld 10 emptyAlbumRow
      [[], "A".toList] [[], "a".toList] 0 "A".toList emptyState rfl (by decide)
  · have h := c1_amended_empty_album.2.2 defaultConfig noSourceWorld 10 emptyAlbumRow []
      [[]] [[]] 0 true emptyState (by decide) rfl (by decide) (by decide) (Or.inl rfl)
    simpa using h

/-- A photo row stored as "p.jpg" with no title. -/
def missingPhotoRow : Row := Row.mk photoType 0 none "p.jpg".toList []

/-- On a missing source file, `generate_content` only appends to the
missing counter and reports success. -/
theorem generate_content_missing (cfg : Config) (w : World) (fspath uipath : List Str)
    (uic pc : Str) (fi : Bool) (st : RState)
    (hdry : cfg.dry_run = false) (hsrc : w.srcIsFile (orig_file_path fspath pc) = false) :
    generate_content cfg w fspath uipath uic pc fi st =
      (true, addMissing (orig_file_path fspath pc) st) := by
  simp only [generate_content]
  rw [if_neg (by simp [hdry]), if_pos (by simp [hsrc])]

/-- Claim C2, counterexample: a photo whose source file is missing is still
appended to the parent's summary list (`generate_content` returns `True`
after recording the miss), with no symlink or thumbnail created. -/
theorem c2_cex_missing_source_listed :
    (get_children defaultConfig noSourceWorld 10 [missingPhotoRow] [[]] [[]] 0 true
        emptyState).1 = [("p.jpg".toList, "p.jpg".toList, photoType)] ∧
    (get_children defaultConfig noSourceWorld 10 [missingPhotoRow] [[]] [[]] 0 true
        emptyState).2.missing = ["gall/p.jpg".toList] ∧
    (get_children defaultConfig noSourceWorld 10 [missingPhotoRow] [[]] [[]] 0 true
        emptyState).2.effs = [] := by
  decide

/-- C2 (amended): for a photo with a missing source file, materialization
has no side effect other than the missing counter — no symlink, no
thumbnail, the filesystem untouched — and traversal continues; but the
photo's entry is still PRESENT in the parent's summary list, because
`generate_content` returns `True` on the missing-source path. -/
theorem c2_amended_missing_source :
    (∀ cfg w fspath uipath uic pc fi st,
      cfg.dry_run = false →
      w.srcIsFile (orig_file_path fspath pc) = false →
      generate_content cfg w fspath uipath uic pc fi st =
        (true, addMissing (orig_file_path fspath pc) st)) ∧
    (∀ cfg w fuel row rest fspath uipath depth fi st,
      decode row.itemtype = photoType →
      cfg.dry_run = false →
      w.srcIsFile (orig_file_path fspath (decode row.path0)) = false →
      (get_children cfg w (fuel + 1) (row :: rest) fspath uipath depth fi st).1 =
        (decode row.path0, cleanup_uipathcomponent (pyOrS row.title row.path0),
          decode row.itemtype) ::
          (get_children cfg w fuel rest fspath uipath depth false
            (addMissing (orig_file_path fspath (decode row.path0)) st)).1) := by
  refine ⟨fun cfg w fspath uipath uic pc fi st hdry hsrc =>
    generate_content_missing cfg w fspath uipath uic pc fi st hdry hsrc, ?_⟩
  intro cfg w fuel row rest fspath uipath depth fi st hphoto hdry hsrc
  simp only [get_children]
  rw [if_neg (not_not_intro (Or.inr hphoto)),
    if_neg (fun hal => absurd (hal.1.symm.trans hphoto) (by decide)),
    generate_content_missing cfg w fspath uipath _ _ fi st hdry hsrc]
  simp

/-- Witness for `c2_amended_missing_source` at the missing-photo store. -/
theorem c2_witness :
    generate_content defaultConfig noSourceWorld [[]] [[]] "p.jpg".toList "p.jpg".toList
        true emptyState =
      (true, addMissing (orig_file_path [[]] "p.jpg".toList) emptyState) ∧
    (get_children defaultConfig noSourceWorld 10 [missingPhotoRow] [[]] [[]] 0 true
        emptyState).1 =
      ("p.jpg".toList, "p.jpg".toList, photoType) ::
        (get_children defaultConfig noSourceWorld 9 [] [[]] [[]] 0 false
          (addMissing (orig_file_path [[]] "p.jpg".toList) emptyState)).1 := by
  constructor
  · exact c2_amended_missing_source.1 defaultConfig noSourceWorld [[]] [[]]
      "p.jpg".toList "p.jpg".toList true emptyState rfl rfl
  · have h := c2_amended_missing_source.2 defaultConfig noSourceWorld 9 missingPhotoRow []
      [[]] [[]] 0 true emptyState (by decide) rfl rfl
    simpa using h

/-- On a thumbnail decode/encode failure (with a thumbnail actually
attempted), `generate_content` logs the miss and returns `False` before the
symlink step. -/
theorem generate_content_thumbfail (cfg : Config) (w : World) (fspath uipath : List Str)
    (uic pc : Str) (fi : Bool) (st : RState)
    (hdry : cfg.dry_run = false) (hsrc : w.srcIsFile (orig_file_path fspath pc) = true)
    (hth : fsExists st.fs (thumb_target_full uipath uic pc) = false)
    (hnt : cfg.no_thumbs = false)
    (hbad : w.imageOk (orig_file_path fspath pc) = false) :
    generate_content cfg w fspath uipath uic pc fi st =
      (false, addMissing (orig_file_path fspath pc) st) := by
  simp only [generate_content]
  rw [if_neg (by simp [hdry]), if_neg (by simp [hsrc]),
    if_pos (Or.inl ⟨by simp [hth], by simp [hnt]⟩), if_neg (by simp [hbad])]

/-- A world with two source photos, of which only `good.jpg` decodes. -/
def badGoodWorld : World :=
  ⟨fun p => p = "gall/bad.jpg".toList || p = "gall/good.jpg".toList,
   fun p => p = "gall/good.jpg".toList⟩

/-- The photo whose thumbnail generation fails. -/
def badPhotoRow : Row := Row.mk photoType 0 none "bad.jpg".toList []

/-- The photo that materializes fine. -/
def goodPhotoRow : Row := Row.mk photoType 0 none "good.jpg".toList []

/-- Claim C4, counterexample: after `bad.jpg`'s thumbnail fails, the run
continues to `good.jpg`, but `bad.jpg` is counted as missing, gets no
symlink, and is absent from the parent's summary list — it is not "still
counted as processed for link purposes". -/
theorem c4_cex_thumbfail :
    (get_children defaultConfig badGoodWorld 10 [badPhotoRow, goodPhotoRow] [[]] [[]] 0
        true emptyState).1 = [("good.jpg".toList, "good.jpg".toList, photoType)] ∧
    (get_children defaultConfig badGoodWorld 10 [badPhotoRow, goodPhotoRow] [[]] [[]] 0
        true emptyState).2.missing = ["gall/bad.jpg".toList] ∧
    (get_children defaultConfig badGoodWorld 10 [badPhotoRow, goodPhotoRow] [[]] [[]] 0
        true emptyState).2.effs =
      [Eff.save "test/t__good.jpg___good.jpg".toList, Eff.save "test/t__album.jpg".toList,
       Eff.symlink "gall/good.jpg".toList "test/good.jpg".toList] := by
  decide

/-- C4 (amended): a thumbnail decode/encode failure does not abort the run —
traversal continues with the remaining siblings, with the first-image flag
untouched — but the photo is treated like a missing file rather than
"processed for link purposes": `generate_content` returns `False`, the
source path is appended to the missing counter, no symlink is attempted,
and the entry is absent from the parent's summary list. -/
theorem c4_amended_thumbfail :
    (∀ cfg w fspath uipath uic pc fi st,
      cfg.dry_run = false →
      w.srcIsFile (orig_file_path fspath pc) = true →
      fsExists st.fs (thumb_target_full uipath uic pc) = false →
      cfg.no_thumbs = false →
      w.imageOk (orig_file_path fspath pc) = false →
      generate_content cfg w fspath uipath uic pc fi st =
        (false, addMissing (orig_file_path fspath pc) st)) ∧
    (∀ cfg w fuel row rest fspath uipath depth fi st,
      decode row.itemtype = photoType →
      cfg.dry_run = false →
      w.srcIsFile (orig_file_path fspath (decode row.path0)) = true →
      fsExists st.fs (thumb_target_full uipath
        (cleanup_uipathcomponent (pyOrS row.title row.path0)) (decode row.path0)) = false →
      cfg.no_thumbs = false →
      w.imageOk (orig_file_path fspath (decode row.path0)) = false →
      get_children cfg w (fuel + 1) (row :: rest) fspath uipath depth fi st =
        get_children cfg w fuel rest fspath uipath depth fi
          (addMissing (orig_file_path fspath (decode row.path0)) st)) := by
  refine ⟨fun cfg w fspath uipath uic pc fi st hdry hsrc hth hnt hbad =>
    generate_content_thumbfail cfg w fspath uipath uic pc fi st hdry hsrc hth hnt hbad, ?_⟩
  intro cfg w fuel row rest fspath uipath depth fi st hphoto hdry hsrc hth hnt hbad
  simp only [get_children]
  rw [if_neg (not_not_intro (Or.inr hphoto)),
    if_neg (fun hal => absurd (hal.1.symm.trans hphoto) (by decide)),
    generate_content_thumbfail cfg w fspath uipath _ _ fi st hdry hsrc hth hnt hbad]
  simp

/-- Witness for `c4_amended_thumbfail` at the bad/good store. -/
theorem c4_witness :
    generate_content defaultConfig badGoodWorld [[]] [[]] "bad.jpg".toList
        "bad.jpg".toList true emptyState =
      (false, addMissing (orig_file_path [[]] "bad.jpg".toList) emptyState) ∧
    get_children defaultConfig badGoodWorld 10 [badPhotoRow, goodPhotoRow] [[]] [[]] 0
        true emptyState =
      get_children defaultConfig badGoodWorld 9 [goodPhotoRow] [[]] [[]] 0 true
        (addMissing (orig_file_path [[]] "bad.jpg".toList) emptyState) := by
  constructor
  · exact c4_amended_thumbfail.1 defaultConfig badGoodWorld [[]] [[]] "bad.jpg".toList
      "bad.jpg".toList true emptyState rfl rfl rfl rfl rfl
  · have h := c4_amended_thumbfail.2 defaultConfig badGoodWorld 9 badPhotoRow
      [goodPhotoRow] [[]] [[]] 0 true emptyState (by decide) rfl rfl (by decide) rfl
      (by decide)
    simpa using h

/-- An album row "a"/"A" holding one photo "p.jpg". -/
def albumWithPhotoRow : Row :=
  Row.mk albumType 1 (some "a".toList) "A".toList [Row.mk photoType 0 none "p.jpg".toList []]

/-- A world where exactly `gall/A/p.jpg` exists and decodes. -/
def onePhotoWorld : World := ⟨fun p => p = "gall/A/p.jpg".toList, fun _ => true⟩

/-- The state left by the first run over the one-album/one-photo store. -/
def firstRunState : RState := main_run defaultConfig onePhotoWorld 20 [albumWithPhotoRow] emptyState

/-- Claim C3, counterexample: running the walk a second time on identical
input performs a filesystem write — `style.css` is reopened with `'w'` and
rewritten unconditionally, with no existence check to short-circuit. -/
theorem c3_cex_second_run_style :
    (main_run defaultConfig onePhotoWorld 20 [albumWithPhotoRow]
        { fs := firstRunState.fs, missing := [], allf := [], effs := [] }).effs ≠ [] ∧
    Eff.writeFile stylePath ∈
      (main_run defaultConfig onePhotoWorld 20 [albumWithPhotoRow]
        { fs := firstRunState.fs, missing := [], allf := [], effs := [] }).effs := by
  decide

/-- C3 (amended): every run of `main` rewrites `style.css` unconditionally
(the write carries no existence check), so a second run is never free of
filesystem writes; the remaining creations are existence-guarded, and on
the one-album/one-photo store the second run's only effect is exactly that
`style.css` rewrite. -/
theorem c3_amended_second_run :
    (∀ cfg w fuel root_kids st,
      Eff.writeFile stylePath ∈ (main_run cfg w fuel root_kids st).effs) ∧
    (main_run defaultConfig onePhotoWorld 20 [albumWithPhotoRow]
        { fs := firstRunState.fs, missing := [], allf := [], effs := [] }).effs =
      [Eff.writeFile stylePath] := by
  constructor
  · intro cfg w fuel root_kids st
    simp only [main_run]
    apply generate_html_effs_mono
    apply get_children_effs_mono
    rw [doWriteFile_effs]
    exact List.mem_append_right _ (by simp)
  · decide
